import Mathlib

/-!
Verification of the command-parsing and task-state core of the slash-command
productivity bot in `src/main.py`: the deadline/title extractor
(`parse_natural_language`), the command dispatcher (`handle_slack_command`,
modelled here as `dispatch`), the in-memory task store, and the response
formatting.

Modelling conventions:
* Python strings are lists of characters (`Str`); the Python string
  operations used by the source (`strip`, `split`, `replace`, `lower`,
  `join`, `title`) are re-implemented with their Python semantics.
* Python dictionaries (`tasks_db`, `user_tasks`) are association lists with
  insertion order preserved; in every state the program can reach the keys
  are pairwise distinct, as in a Python dict.
* Wall-clock instants are an abstract day/hour/minute record `DT` (seconds
  are not modelled; no claim inspects them).  `datetime.now()` and the
  generated task id (`uuid4` truncated to 8 characters, nondeterministic)
  are inputs carried by an environment record `Env`, together with the
  third-party calendar parser `dateutil.parser.parse`, modelled as a
  function `Str → Option DT` (`none` = the parser raised).
* The regular-expression searches of `parse_natural_language` are
  implemented pattern by pattern with Python `re.search` semantics
  (leftmost match, alternation tried in order, greedy/lazy backtracking).
-/

namespace Bot

/-- Python strings, modelled as lists of characters. -/
abbrev Str := List Char

/-- Python whitespace test (the ASCII fragment: space, tab, newline,
carriage return, vertical tab, form feed). -/
def isWs (c : Char) : Bool :=
  c = ' ' || c = '\t' || c = '\n' || c = '\r' || c = '\x0b' || c = '\x0c'

def notWs (c : Char) : Bool := !isWs c

/-- Python `str.lower` (ASCII). -/
def pyLower (l : Str) : Str := l.map Char.toLower

/-- Python `str.strip()`: whitespace removed from both ends. -/
def pyStrip (l : Str) : Str :=
  ((l.dropWhile isWs).reverse.dropWhile isWs).reverse

/-- Python `str.split(sep)` for a one-character separator: keeps empty
pieces, `"".split(sep) == [""]`. -/
def pySplitSep (sep : Char) : Str → List Str
  | [] => [[]]
  | c :: rest =>
    if c = sep then [] :: pySplitSep sep rest
    else
      match pySplitSep sep rest with
      | [] => [[c]]
      | g :: gs => (c :: g) :: gs

/-- Python `sep.join` for a one-character separator. -/
def joinSep (sep : Char) (ls : List Str) : Str := List.intercalate [sep] ls

/-- Concatenation of a list of strings (the `response += …` loop). -/
def catAll (ls : List Str) : Str := ls.foldr (fun a b => a ++ b) []

/-- Python `str.split(None, maxsplit)`: runs of whitespace separate tokens,
leading whitespace is skipped, and once `maxsplit` splits are done the rest
of the string (with the whitespace run before it consumed) is the last
piece. -/
def pySplitWs (maxsplit : Nat) (l : Str) : List Str :=
  let s := l.dropWhile isWs
  if s = [] then []
  else
    match maxsplit with
    | 0 => [s]
    | n + 1 => s.takeWhile notWs :: pySplitWs n (s.dropWhile notWs)

/-- Python `str.replace(pat, "")`: every non-overlapping occurrence of
`pat`, found left to right, is removed.  (The source only calls this under
`if deadline_text:`, so `pat` is never empty there.)  The recursion is
fuelled so that it is structural: each step consumes at least one
character of the text, so `text.length` steps always suffice, and the
result does not depend on the fuel (`replaceFuel_congr`). -/
def replaceFuel (pat : Str) : Nat → Str → Str
  | 0, l => l
  | _ + 1, [] => []
  | fuel + 1, c :: rest =>
    if pat.isPrefixOf (c :: rest) ∧ pat ≠ [] then
      replaceFuel pat fuel (rest.drop (pat.length - 1))
    else
      c :: replaceFuel pat fuel rest

/-- Python `text.replace(pat, "")`. -/
def pyReplace (pat text : Str) : Str := replaceFuel pat text.length text

/-- Removal of only the first occurrence of `pat` (what the specification
text asserts for step 3 of the extractor; compare `pyReplace`). -/
def replaceFirst (pat : Str) : Str → Str
  | [] => []
  | c :: rest =>
    if pat.isPrefixOf (c :: rest) ∧ pat ≠ [] then
      rest.drop (pat.length - 1)
    else
      c :: replaceFirst pat rest

/-- Python `pat in hay` (substring test). -/
def containsSub (hay pat : Str) : Bool :=
  if pat.isPrefixOf hay then true
  else
    match hay with
    | [] => false
    | _ :: rest => containsSub rest pat

/-- Numeric value of a digit string. -/
def digitsVal (l : Str) : Nat :=
  l.foldl (fun a c => a * 10 + (c.toNat - '0'.toNat)) 0

/-- `re.search(r"\d+", l)` followed by `int(...)`: value of the first
maximal digit run, `none` when there is no digit (in the source that makes
`.group()` raise, and the surrounding `except` drops the deadline). -/
def firstNat : Str → Option Nat
  | [] => none
  | c :: rest =>
    if c.isDigit then some (digitsVal (c :: rest.takeWhile Char.isDigit))
    else firstNat rest

/-! ### The six deadline regular expressions

Each pattern is given by a `matchAt` function: on a suffix of the
(lowercased) input it returns the length of the match starting there, if
any, with Python `re` backtracking semantics.  `firstMatchFrom` scans
start positions left to right, as `re.search` does. -/

def firstMatchFrom (matchAt : Str → Option Nat) : Str → Option (Nat × Nat)
  | [] => none
  | l@(_ :: rest) =>
    match matchAt l with
    | some n => some (0, n)
    | none => (firstMatchFrom matchAt rest).map (fun p => (p.1 + 1, p.2))

/-- Alternation of literal words, tried in order (pattern 2 and pattern 6). -/
def altLits (lits : List Str) (l : Str) : Option Nat :=
  lits.findSome? (fun lit => if lit.isPrefixOf l then some lit.length else none)

def findLitPrefix (lits : List Str) (l : Str) : Option Str :=
  lits.findSome? (fun lit => if lit.isPrefixOf l then some lit else none)

def prepLits : List Str :=
  ["by".toList, "due".toList, "deadline".toList, "until".toList]

/-- The lazy `(.+?)` of pattern 1 followed by `(?:\s+|$)`: the smallest
nonempty run of non-newline characters after which a whitespace character
or the end of the string stands. -/
def contentLen : Str → Option Nat
  | [] => none
  | c :: rest =>
    if c = '\n' then none
    else
      match rest with
      | [] => some 1
      | d :: _ => if isWs d then some 1 else (contentLen rest).map (· + 1)

/-- After the content, `(?:\s+|$)` greedily takes the whitespace run. -/
def p1AfterWs (tail : Str) : Option Nat :=
  (contentLen tail).map (fun m => m + ((tail.drop m).takeWhile isWs).length)

/-- Backtracking of the greedy `\s+` between the preposition and the
content: tried from the full whitespace run down to a single character. -/
def p1Go (litLen : Nat) (afterLit : Str) : Nat → Option Nat
  | 0 => none
  | w + 1 =>
    match p1AfterWs (afterLit.drop (w + 1)) with
    | some r => some (litLen + (w + 1) + r)
    | none => p1Go litLen afterLit w

/-- Pattern 1: `(by|due|deadline|until)\s+(.+?)(?:\s+|$)`. -/
def prepMatchAt (l : Str) : Option Nat :=
  match findLitPrefix prepLits l with
  | none => none
  | some lit =>
    let after := l.drop lit.length
    p1Go lit.length after ((after.takeWhile isWs).length)

def relLits : List Str :=
  ["tomorrow".toList, "today".toList, "next week".toList, "next month".toList]

def weekdayLits : List Str :=
  ["monday".toList, "tuesday".toList, "wednesday".toList, "thursday".toList,
   "friday".toList, "saturday".toList, "sunday".toList]

/-- `\d{1,2}` (greedy: two digits if the rest matches, else one), in
continuation style. -/
def d12 (k : Str → Option Nat) (l : Str) : Option Nat :=
  match l with
  | [] => none
  | a :: rest =>
    if a.isDigit then
      match rest with
      | b :: rest2 =>
        if b.isDigit then
          match k rest2 with
          | some n => some (n + 2)
          | none => (k rest).map (· + 1)
        else (k rest).map (· + 1)
      | [] => (k rest).map (· + 1)
    else none

def slashThen (k : Str → Option Nat) (l : Str) : Option Nat :=
  match l with
  | '/' :: rest => (k rest).map (· + 1)
  | _ => none

def d4End (l : Str) : Option Nat :=
  match l with
  | a :: b :: c :: d :: _ =>
    if a.isDigit && b.isDigit && c.isDigit && d.isDigit then some 4 else none
  | _ => none

/-- Pattern 3: `(\d{1,2}/\d{1,2}/\d{4})`. -/
def dateYMatchAt : Str → Option Nat := d12 (slashThen (d12 (slashThen d4End)))

/-- Pattern 4: `(\d{1,2}/\d{1,2})`. -/
def dateMatchAt : Str → Option Nat := d12 (slashThen (d12 (fun _ => some 0)))

/-- Pattern 5: `(in\s+\d+\s+days?)`. -/
def inDaysMatchAt (l : Str) : Option Nat :=
  if ("in".toList).isPrefixOf l then
    let r1 := l.drop 2
    let w1 := (r1.takeWhile isWs).length
    if w1 = 0 then none
    else
      let r2 := r1.drop w1
      let d := (r2.takeWhile Char.isDigit).length
      if d = 0 then none
      else
        let r3 := r2.drop d
        let w2 := (r3.takeWhile isWs).length
        if w2 = 0 then none
        else
          let r4 := r3.drop w2
          if ("day".toList).isPrefixOf r4 then
            let base := 2 + w1 + d + w2 + 3
            match r4.drop 3 with
            | 's' :: _ => some (base + 1)
            | _ => some base
          else none
  else none

/-- The ordered pattern list of `parse_natural_language`. -/
def patternMatchers : List (Str → Option Nat) :=
  [prepMatchAt, altLits relLits, dateYMatchAt, dateMatchAt, inDaysMatchAt,
   altLits weekdayLits]

/-- The `for pattern in deadline_patterns: re.search(pattern, text,
re.IGNORECASE)` loop: the first pattern that matches anywhere wins, and
`match.group(0)` is the slice of the original (not lowercased) text. -/
def findDeadlineText (text : Str) : Option Str :=
  let low := pyLower text
  patternMatchers.findSome? (fun m =>
    (firstMatchFrom m low).map (fun p => (text.drop p.1).take p.2))

/-! ### Time, deadline resolution, and the extractor -/

/-- An abstract wall-clock instant: a day index plus hour and minute.
Calendar structure (year/month) and seconds are not modelled; the
operations the source uses are adding whole days (`timedelta`) and
`replace(hour=23, minute=59)`. -/
structure DT where
  day : Int
  hour : Nat
  minute : Nat
deriving DecidableEq, Repr

/-- `now + timedelta(days=n)`: preserves the time of day. -/
def addDays (d : DT) (n : Nat) : DT := { d with day := d.day + n }

/-- `now.replace(hour=23, minute=59)`. -/
def endOfDay (d : DT) : DT := { d with hour := 23, minute := 59 }

/-- The `try: … except: deadline = None` block that resolves the matched
fragment `dt` (lines 66-83 of `src/main.py`).  `gp` models
`dateutil.parser.parse` (`none` = it raised). -/
def resolveDeadline (now : DT) (gp : Str → Option DT) (dt : Str) : Option DT :=
  let low := pyLower dt
  if containsSub low ("tomorrow".toList) then some (addDays now 1)
  else if containsSub low ("today".toList) then some (endOfDay now)
  else if containsSub low ("next week".toList) then some (addDays now 7)
  else if containsSub low ("next month".toList) then some (addDays now 30)
  else if containsSub low ("in".toList) && containsSub low ("day".toList) then
    match firstNat dt with
    | some n => some (addDays now n)
    | none => none
  else gp dt

structure ParseResult where
  title : Str
  description : Option Str
  deadline : Option DT
deriving DecidableEq, Repr

/-- Lines 86-88: `if deadline_text: text = text.replace(deadline_text,
"").strip()`. -/
def strippedRemainder (text : Str) : Str :=
  match findDeadlineText text with
  | some f => pyStrip (pyReplace f text)
  | none => text

/-- `parse_natural_language` (lines 46-109 of `src/main.py`). -/
def parse_natural_language (now : DT) (gp : Str → Option DT) (text : Str) :
    ParseResult :=
  let deadline :=
    match findDeadlineText text with
    | some f => resolveDeadline now gp f
    | none => none
  let text2 := strippedRemainder text
  let lines := pySplitSep '\n' text2
  let title0 := pyStrip lines.headI
  let td : Str × Option Str :=
    if 1 < lines.length ∨ 1 < (pySplitSep '.' text2).length then
      if 1 < lines.length then
        (title0, some (pyStrip (joinSep '\n' lines.tail)))
      else
        let sentences := pySplitSep '.' text2
        if 1 < sentences.length then
          (pyStrip sentences.headI, some (pyStrip (joinSep '.' sentences.tail)))
        else (title0, none)
    else (title0, none)
  { title := if td.1 ≠ [] then td.1 else text2
    description := td.2
    deadline := deadline }

/-! ### The task store and the dispatcher -/

structure Task where
  id : Str
  title : Str
  description : Option Str
  deadline : Option DT
  status : Str
  created_at : DT
  subtasks : List Str
deriving DecidableEq, Repr

structure Response where
  response_type : Str
  text : Str
deriving DecidableEq, Repr

/-- The two module-level dictionaries `tasks_db` and `user_tasks`. -/
structure BotState where
  tasks_db : List (Str × Task)
  user_tasks : List (Str × List Str)
deriving DecidableEq, Repr

/-- The per-request nondeterminism: `datetime.now()`, the id
`generate_task_id()` would return, and `dateutil.parser.parse`. -/
structure Env where
  now : DT
  newId : Str
  gp : Str → Option DT

def dictGet {K V : Type} [DecidableEq K] : List (K × V) → K → Option V
  | [], _ => none
  | (k', v) :: rest, k => if k' = k then some v else dictGet rest k

def dictGetD {K V : Type} [DecidableEq K] (d : List (K × V)) (k : K) (v0 : V) : V :=
  (dictGet d k).getD v0

/-- `d[k] = v` on a Python dict: in-place update when the key exists,
append otherwise. -/
def dictInsert {K V : Type} [DecidableEq K] : List (K × V) → K → V → List (K × V)
  | [], k, v => [(k, v)]
  | (k', v') :: rest, k, v =>
    if k' = k then (k, v) :: rest else (k', v') :: dictInsert rest k v

/-- `d.pop(k)`. -/
def dictRemove {K V : Type} [DecidableEq K] : List (K × V) → K → List (K × V)
  | [], _ => []
  | (k', v') :: rest, k =>
    if k' = k then rest else (k', v') :: dictRemove rest k

/-- In-place mutation of the value at a key (`tasks_db[task_id].status = …`). -/
def dictModify {K V : Type} [DecidableEq K] : List (K × V) → K → (V → V) → List (K × V)
  | [], _, _ => []
  | (k', v) :: rest, k, f =>
    if k' = k then (k', f v) :: rest else (k', v) :: dictModify rest k f

/-- `create_task` (lines 111-128): builds the task (status defaults to
`pending`), stores it, and appends the id to the caller's index. -/
def create_task (task_id : Str) (now : DT) (user_id : Str) (pd : ParseResult)
    (st : BotState) : BotState × Task :=
  let task : Task :=
    { id := task_id, title := pd.title, description := pd.description,
      deadline := pd.deadline, status := "pending".toList,
      created_at := now, subtasks := [] }
  let db := dictInsert st.tasks_db task_id task
  let prev := dictGetD st.user_tasks user_id []
  let ut := dictInsert st.user_tasks user_id (prev ++ [task_id])
  ({ tasks_db := db, user_tasks := ut }, task)

/-! ### Formatting -/

/-- Python `str.title()` (ASCII): a cased character after a non-cased one
is uppercased, every other cased character lowercased. -/
def titleGo (prevAlpha : Bool) : Str → Str
  | [] => []
  | c :: rest =>
    (if prevAlpha then c.toLower else c.toUpper) :: titleGo c.isAlpha rest

def pyTitleCase (l : Str) : Str := titleGo false l

/-- `task.status.replace('_', ' ').title()`. -/
def statusDisp (s : Str) : Str :=
  pyTitleCase (s.map (fun c => if c = '_' then ' ' else c))

/-- Decimal rendering of a natural number. -/
def natStr (n : Nat) : Str := Nat.toDigits 10 n

def intStr (i : Int) : Str :=
  if i < 0 then '-' :: natStr i.natAbs else natStr i.natAbs

def twoDigits (n : Nat) : Str := if n < 10 then '0' :: natStr n else natStr n

/-- `strftime('%Y-%m-%d %H:%M')` on the abstract `DT`: the day index
stands in for the calendar date (no claim inspects the rendering). -/
def fmtFull (d : DT) : Str :=
  intStr d.day ++ " ".toList ++ twoDigits d.hour ++ ":".toList ++ twoDigits d.minute

/-- `strftime('%m/%d')` on the abstract `DT`. -/
def fmtMD (d : DT) : Str := intStr d.day

/-- `format_task_response` (lines 130-144). -/
def format_task_response (task : Task) : Str :=
  "✅ **Task Created:** ".toList ++ task.title ++ "\n".toList
  ++ "📝 **ID:** ".toList ++ task.id ++ "\n".toList
  ++ (match task.description with
      | some d => if d ≠ [] then "📋 **Description:** ".toList ++ d ++ "\n".toList else []
      | none => [])
  ++ (match task.deadline with
      | some dl => "⏰ **Deadline:** ".toList ++ fmtFull dl ++ "\n".toList
      | none => [])
  ++ "📊 **Status:** ".toList ++ statusDisp task.status ++ "\n".toList
  ++ "🕐 **Created:** ".toList ++ fmtFull task.created_at

def statusEmojiMap : List (Str × Str) :=
  [("pending".toList, "⏳".toList),
   ("in_progress".toList, "🔄".toList),
   ("completed".toList, "✅".toList)]

def statusEmoji (s : Str) : Str := dictGetD statusEmojiMap s ("❓".toList)

/-- The number shown in the listing header:
`len(user_tasks[user_id])` (line 151). -/
def headerCount (st : BotState) (user_id : Str) : Nat :=
  (dictGetD st.user_tasks user_id []).length

/-- One line of the listing body (lines 162-165). -/
def taskLine (task : Task) : Str :=
  statusEmoji task.status ++ " **".toList ++ task.id ++ "** - ".toList ++ task.title
  ++ (match task.deadline with
      | some dl => " (Due: ".toList ++ fmtMD dl ++ ")".toList
      | none => [])
  ++ "\n".toList

/-- The `for task_id in user_tasks[user_id]: if task_id in tasks_db: …`
loop (lines 153-165): one line per indexed id still present in the store. -/
def listBodyLines (st : BotState) (user_id : Str) : List Str :=
  (dictGetD st.user_tasks user_id []).filterMap
    (fun tid => (dictGet st.tasks_db tid).map taskLine)

/-- `list_user_tasks` (lines 146-168). -/
def list_user_tasks (st : BotState) (user_id : Str) : Str :=
  if dictGetD st.user_tasks user_id [] = [] then
    "📭 You don't have any tasks yet! Use `/task create <task description>` to create one.".toList
  else
    "📋 **Your Tasks (".toList ++ natStr (headerCount st user_id) ++ "):**\n\n".toList
    ++ catAll (listBodyLines st user_id)
    ++ "\n💡 Use `/task show <task_id>` to see details or `/task update <task_id> <status>` to update status.".toList

def helpText : Str :=
  ("🤖 **Slack Productivity Bot Help**\n\n"
   ++ "**Commands:**\n"
   ++ "• `/task create <description>` - Create a new task\n"
   ++ "• `/task list` - List all your tasks\n"
   ++ "• `/task show <task_id>` - Show task details\n"
   ++ "• `/task update <task_id> <status>` - Update task status (pending/in_progress/completed)\n"
   ++ "• `/task delete <task_id>` - Delete a task\n\n"
   ++ "**Examples:**\n"
   ++ "• `/task create Review project proposal by tomorrow`\n"
   ++ "• `/task create Set up meeting with client next week`\n"
   ++ "• `/task update abc123 completed`").toList

def notFoundText (task_id : Str) : Str :=
  "❌ Task '".toList ++ task_id ++ "' not found.".toList

def statusList : List Str :=
  ["pending".toList, "in_progress".toList, "completed".toList]

def statusMsgs : List (Str × Str) :=
  [("pending".toList, "⏳ Task moved to pending".toList),
   ("in_progress".toList, "🔄 Task is now in progress".toList),
   ("completed".toList, "🎉 Task completed!".toList)]

def statusMessage (s : Str) : Str := dictGetD statusMsgs s []

/-- The command dispatcher `handle_slack_command` (lines 170-314), from the
point where the transport has delivered `user_id` and the raw command text.
In the `update` branch the source formats `tasks_db[task_id]` after the
in-place mutation; since `dictModify` rewrites exactly the entry `dictGet`
read, that value is the looked-up task with the new status. -/
def dispatch (env : Env) (user_id : Str) (rawText : Str) (st : BotState) :
    BotState × Response :=
  let text := pyStrip rawText
  if text = [] then (st, ⟨"ephemeral".toList, helpText⟩)
  else
    let parts := pySplitWs 2 text
    let action := pyLower parts.headI
    if action = "create".toList then
      if parts.length < 2 then
        (st, ⟨"ephemeral".toList,
          "❌ Please provide a task description. Example: `/task create Review documents by Friday`".toList⟩)
      else
        let task_input := joinSep ' ' parts.tail
        let pd := parse_natural_language env.now env.gp task_input
        let r := create_task env.newId env.now user_id pd st
        (r.1, ⟨"in_channel".toList, format_task_response r.2⟩)
    else if action = "list".toList then
      (st, ⟨"ephemeral".toList, list_user_tasks st user_id⟩)
    else if action = "show".toList then
      if parts.length < 2 then
        (st, ⟨"ephemeral".toList,
          "❌ Please provide a task ID. Example: `/task show abc123`".toList⟩)
      else
        let task_id := parts.getD 1 []
        match dictGet st.tasks_db task_id with
        | none => (st, ⟨"ephemeral".toList, notFoundText task_id⟩)
        | some task => (st, ⟨"ephemeral".toList, format_task_response task⟩)
    else if action = "update".toList then
      if parts.length < 3 then
        (st, ⟨"ephemeral".toList,
          "❌ Please provide task ID and status. Example: `/task update abc123 completed`".toList⟩)
      else
        let task_id := parts.getD 1 []
        let new_status := pyLower (parts.getD 2 [])
        match dictGet st.tasks_db task_id with
        | none => (st, ⟨"ephemeral".toList, notFoundText task_id⟩)
        | some task =>
          if new_status ∈ statusList then
            let db2 := dictModify st.tasks_db task_id
              (fun t => { t with status := new_status })
            ({ st with tasks_db := db2 },
             ⟨"in_channel".toList,
              statusMessage new_status ++ "\n".toList
              ++ format_task_response { task with status := new_status }⟩)
          else
            (st, ⟨"ephemeral".toList,
              "❌ Status must be one of: pending, in_progress, completed".toList⟩)
    else if action = "delete".toList then
      if parts.length < 2 then
        (st, ⟨"ephemeral".toList,
          "❌ Please provide a task ID. Example: `/task delete abc123`".toList⟩)
      else
        let task_id := parts.getD 1 []
        match dictGet st.tasks_db task_id with
        | none => (st, ⟨"ephemeral".toList, notFoundText task_id⟩)
        | some task =>
          let ut :=
            match dictGet st.user_tasks user_id with
            | some l =>
              if task_id ∈ l then dictInsert st.user_tasks user_id (l.erase task_id)
              else st.user_tasks
            | none => st.user_tasks
          ({ tasks_db := dictRemove st.tasks_db task_id, user_tasks := ut },
           ⟨"ephemeral".toList,
            "🗑️ Task '".toList ++ task.title ++ "' has been deleted.".toList⟩)
    else
      (st, ⟨"ephemeral".toList,
        "❌ Unknown action '".toList ++ action
        ++ "'. Use `/task` without parameters to see help.".toList⟩)


/-! ### Observers used by the claims -/

/-- A command token: nonempty, no whitespace (task ids and status words). -/
def cleanToken (l : Str) : Bool := !l.isEmpty && l.all notWs

/-- First and last character exist and are not whitespace (so `strip` is
the identity); internal whitespace is allowed. -/
def headNonWs (l : Str) : Bool :=
  match l with
  | [] => false
  | c :: _ => notWs c

def cleanEnds (l : Str) : Bool := headNonWs l && headNonWs l.reverse

/-- The action verb the dispatcher routes on (`parts[0].lower()`), computed
from the raw command text; `[]` when the text is all whitespace. -/
def cmdAction (rawText : Str) : Str :=
  pyLower (pySplitWs 2 (pyStrip rawText)).headI

/-- The id a `delete` command targets, when the command reaches the
deletion branch guards (action `delete`, id argument present). -/
def deleteTarget (rawText : Str) : Option Str :=
  let parts := pySplitWs 2 (pyStrip rawText)
  if cmdAction rawText = "delete".toList ∧ 2 ≤ parts.length then
    some (parts.getD 1 [])
  else none

/-- The store/index integrity invariant of the specification: every task
id in any user's index entry is a key of `tasks_db`. -/
def danglingFree (st : BotState) : Bool :=
  st.user_tasks.all (fun p => p.2.all (fun tid => (dictGet st.tasks_db tid).isSome))

/-- `tid` appears in no index entry of a user other than `u`. -/
def otherIndexFree (st : BotState) (u tid : Str) : Bool :=
  st.user_tasks.all (fun p => p.1 = u || decide (tid ∉ p.2))

/-- The error conditions of the dispatcher, computed from the pre-state and
the command text exactly as the dispatcher's guards compute them: a usage
error (missing argument), a not-found error (id absent from `tasks_db`), a
status validation error, or an unknown action.  The empty command (help)
and the success paths are not errors. -/
def isErrorCmd (st : BotState) (rawText : Str) : Bool :=
  let text := pyStrip rawText
  if text = [] then false
  else
    let parts := pySplitWs 2 text
    let action := pyLower parts.headI
    if action = "create".toList then decide (parts.length < 2)
    else if action = "list".toList then false
    else if action = "show".toList then
      decide (parts.length < 2) || (dictGet st.tasks_db (parts.getD 1 [])).isNone
    else if action = "update".toList then
      decide (parts.length < 3) || (dictGet st.tasks_db (parts.getD 1 [])).isNone
      || decide (pyLower (parts.getD 2 []) ∉ statusList)
    else if action = "delete".toList then
      decide (parts.length < 2) || (dictGet st.tasks_db (parts.getD 1 [])).isNone
    else true

/-- The extractor with step 3 read as the specification words it: only the
first occurrence of the matched fragment removed.  Modelled from the spec
for comparison with `parse_natural_language`; everything except the
removal step is the code's algorithm. -/
def parseFirstOnly (now : DT) (gp : Str → Option DT) (text : Str) : ParseResult :=
  let deadline :=
    match findDeadlineText text with
    | some f => resolveDeadline now gp f
    | none => none
  let text2 :=
    match findDeadlineText text with
    | some f => pyStrip (replaceFirst f text)
    | none => text
  let lines := pySplitSep '\n' text2
  let title0 := pyStrip lines.headI
  let td : Str × Option Str :=
    if 1 < lines.length ∨ 1 < (pySplitSep '.' text2).length then
      if 1 < lines.length then
        (title0, some (pyStrip (joinSep '\n' lines.tail)))
      else
        let sentences := pySplitSep '.' text2
        if 1 < sentences.length then
          (pyStrip sentences.headI, some (pyStrip (joinSep '.' sentences.tail)))
        else (title0, none)
    else (title0, none)
  { title := if td.1 ≠ [] then td.1 else text2
    description := td.2
    deadline := deadline }

/-- The deadline-resolution rule as the specification words it: the
`now + N days` case applies to fragments of the literal `in N days` form
(pattern 5), every other fragment goes to generic calendar parsing.
Modelled from the spec for comparison with `resolveDeadline`. -/
def resolveDeadlineSpec (now : DT) (gp : Str → Option DT) (dt : Str) : Option DT :=
  let low := pyLower dt
  if containsSub low ("tomorrow".toList) then some (addDays now 1)
  else if containsSub low ("today".toList) then some (endOfDay now)
  else if containsSub low ("next week".toList) then some (addDays now 7)
  else if containsSub low ("next month".toList) then some (addDays now 30)
  else if (inDaysMatchAt low).isSome then
    match firstNat dt with
    | some n => some (addDays now n)
    | none => none
  else gp dt


/-! ### Concrete scenario data used by the closed theorems -/

/-- A fixed wall-clock instant. -/
def n0 : DT := ⟨100, 9, 30⟩

/-- A calendar parser that always fails (every fragment it is handed in
the scenarios below is not a calendar date). -/
def gpNone : Str → Option DT := fun _ => none

/-- The initial module state: both dictionaries empty. -/
def st0 : BotState := ⟨[], []⟩

/-- An environment whose fresh-id draw is `id`. -/
def envN (id : Str) : Env := ⟨n0, id, gpNone⟩

/-- `userA` creates a task (the generator draws `id1`). -/
def stCreate1 : BotState :=
  (dispatch (envN ("id1".toList)) ("userA".toList) ("create alpha".toList) st0).1

/-- `userA` creates a second task (the generator draws `id2`). -/
def stCreate2 : BotState :=
  (dispatch (envN ("id2".toList)) ("userA".toList) ("create beta".toList) stCreate1).1

/-- A different user, `userB`, deletes `userA`'s first task. -/
def stCrossDelete : BotState :=
  (dispatch (envN ("id9".toList)) ("userB".toList) ("delete id1".toList) stCreate2).1

/-- Two creations for which the truncated-uuid generator happens to draw
the same id twice. -/
def stDup1 : BotState :=
  (dispatch (envN ("dup".toList)) ("userA".toList) ("create alpha".toList) st0).1

def stDup2 : BotState :=
  (dispatch (envN ("dup".toList)) ("userA".toList) ("create beta".toList) stDup1).1

/-! ### Lemmas about the dictionary model -/

theorem dictGet_dictInsert_self {K V : Type} [DecidableEq K]
    (d : List (K × V)) (k : K) (v : V) :
    dictGet (dictInsert d k v) k = some v := by
  induction d with
  | nil => simp [dictInsert, dictGet]
  | cons p rest ih =>
    by_cases h : p.1 = k
    · simp [dictInsert, h, dictGet]
    · simpa [dictInsert, h, dictGet] using ih

theorem dictGet_dictInsert_ne {K V : Type} [DecidableEq K]
    (d : List (K × V)) (k k' : K) (v : V) (h : k' ≠ k) :
    dictGet (dictInsert d k v) k' = dictGet d k' := by
  have h1 : ¬ k = k' := fun hh => h hh.symm
  induction d with
  | nil => simp [dictInsert, dictGet, h1]
  | cons p rest ih =>
    by_cases hp : p.1 = k
    · have h2 : ¬ p.1 = k' := by rw [hp]; exact h1
      simp [dictInsert, hp, dictGet, h1, h2]
    · by_cases hp' : p.1 = k'
      · simp [dictInsert, hp, dictGet, hp', h, h1]
      · simp [dictInsert, hp, dictGet, hp', ih]

theorem dictGet_dictModify {K V : Type} [DecidableEq K]
    (d : List (K × V)) (k k' : K) (f : V → V) :
    dictGet (dictModify d k f) k' =
      if k' = k then (dictGet d k).map f else dictGet d k' := by
  induction d with
  | nil => by_cases h : k' = k <;> simp [dictModify, dictGet, h]
  | cons p rest ih =>
    by_cases hp : p.1 = k
    · by_cases h : k' = k
      · have h2 : p.1 = k' := by rw [hp, h]
        simp [dictModify, hp, dictGet, h, h2]
      · have h2 : ¬ p.1 = k' := by rw [hp]; exact fun hh => h hh.symm
        have h3 : ¬ k = k' := fun hh => h hh.symm
        simp [dictModify, hp, dictGet, h, h2, h3]
    · by_cases hp' : p.1 = k'
      · have hk : ¬ k' = k := by rw [← hp']; exact fun hh => hp hh
        simp [dictModify, hp, dictGet, hp', hk]
      · simp [dictModify, hp, dictGet, hp', ih]

theorem dictGet_dictRemove_ne {K V : Type} [DecidableEq K]
    (d : List (K × V)) (k k' : K) (h : k' ≠ k) :
    dictGet (dictRemove d k) k' = dictGet d k' := by
  have h1 : ¬ k = k' := fun hh => h hh.symm
  induction d with
  | nil => simp [dictRemove]
  | cons p rest ih =>
    by_cases hp : p.1 = k
    · have h2 : ¬ p.1 = k' := by rw [hp]; exact h1
      simp [dictRemove, hp, dictGet, h2, h1]
    · by_cases hp' : p.1 = k'
      · simp [dictRemove, hp, dictGet, hp', h, h1]
      · simp [dictRemove, hp, dictGet, hp', ih]

theorem dictGet_dictRemove_none {K V : Type} [DecidableEq K]
    (d : List (K × V)) (k k' : K) (h : dictGet d k' = none) :
    dictGet (dictRemove d k) k' = none := by
  induction d with
  | nil => simp [dictRemove, dictGet]
  | cons p rest ih =>
    by_cases hp : p.1 = k'
    · simp [dictGet, hp] at h
    · simp only [dictGet, hp, if_false] at h
      by_cases hpk : p.1 = k
      · simpa [dictRemove, hpk] using h
      · simp [dictRemove, hpk, dictGet, hp, ih h]

theorem dictGet_none_of_not_mem_keys {K V : Type} [DecidableEq K]
    (d : List (K × V)) (k : K) (h : k ∉ d.map Prod.fst) : dictGet d k = none := by
  induction d with
  | nil => simp [dictGet]
  | cons p rest ih =>
    simp only [List.map_cons, List.mem_cons] at h
    push_neg at h
    have hp : ¬ p.1 = k := fun hh => h.1 hh.symm
    simp [dictGet, hp, ih h.2]

theorem dictGet_dictRemove_self {K V : Type} [DecidableEq K]
    (d : List (K × V)) (k : K) (hnd : (d.map Prod.fst).Nodup) :
    dictGet (dictRemove d k) k = none := by
  induction d with
  | nil => simp [dictRemove, dictGet]
  | cons p rest ih =>
    simp only [List.map_cons, List.nodup_cons] at hnd
    by_cases hp : p.1 = k
    · have : k ∉ rest.map Prod.fst := by rw [← hp]; exact hnd.1
      simpa [dictRemove, hp] using dictGet_none_of_not_mem_keys rest k this
    · simp [dictRemove, hp, dictGet, ih hnd.2]

theorem dictGet_some_mem {K V : Type} [DecidableEq K]
    (d : List (K × V)) (k : K) (v : V) (h : dictGet d k = some v) : (k, v) ∈ d := by
  induction d with
  | nil => simp [dictGet] at h
  | cons p rest ih =>
    by_cases hp : p.1 = k
    · simp only [dictGet, hp, if_true] at h
      cases h
      have h3 : (k, p.2) = p := by rw [← hp]
      exact List.mem_cons.mpr (Or.inl h3)
    · simp only [dictGet, hp, if_false] at h
      exact List.mem_cons_of_mem _ (ih h)

theorem dictGet_none_not_mem {K V : Type} [DecidableEq K]
    (d : List (K × V)) (k : K) (v : V) (h : dictGet d k = none) : (k, v) ∉ d := by
  induction d with
  | nil => simp
  | cons p rest ih =>
    by_cases hp : p.1 = k
    · simp [dictGet, hp] at h
    · simp only [dictGet, hp, if_false] at h
      intro hm
      rcases List.mem_cons.mp hm with hm | hm
      · exact hp (by rw [← hm])
      · exact ih h hm

theorem mem_dictInsert {K V : Type} [DecidableEq K]
    (d : List (K × V)) (k : K) (v : V) (p : K × V) (h : p ∈ dictInsert d k v) :
    p = (k, v) ∨ p ∈ d := by
  induction d with
  | nil => simpa [dictInsert] using h
  | cons q rest ih =>
    by_cases hq : q.1 = k
    · simp only [dictInsert, hq, if_true, List.mem_cons] at h
      rcases h with h | h
      · exact Or.inl h
      · exact Or.inr (List.mem_cons_of_mem _ h)
    · simp only [dictInsert, hq, if_false, List.mem_cons] at h
      rcases h with h | h
      · exact Or.inr (h ▸ List.mem_cons_self _ _)
      · rcases ih h with h | h
        · exact Or.inl h
        · exact Or.inr (List.mem_cons_of_mem _ h)

theorem length_dictInsert_of_none {K V : Type} [DecidableEq K]
    (d : List (K × V)) (k : K) (v : V) (h : dictGet d k = none) :
    (dictInsert d k v).length = d.length + 1 := by
  induction d with
  | nil => simp [dictInsert]
  | cons p rest ih =>
    by_cases hp : p.1 = k
    · simp [dictGet, hp] at h
    · simp only [dictGet, hp, if_false] at h
      simp [dictInsert, hp, ih h]

/-! ### Lemmas about the string model -/

theorem takeWhile_append_of_all {p : Char → Bool} {a : Str} (l : Str)
    (h : ∀ x ∈ a, p x) : (a ++ l).takeWhile p = a ++ l.takeWhile p := by
  induction a with
  | nil => simp
  | cons c r ih =>
    have hc : p c = true := h c (List.mem_cons_self c r)
    simp only [List.cons_append, List.takeWhile_cons, hc, if_true]
    rw [ih (fun x hx => h x (List.mem_cons_of_mem c hx))]

theorem dropWhile_append_of_all {p : Char → Bool} {a : Str} (l : Str)
    (h : ∀ x ∈ a, p x) : (a ++ l).dropWhile p = l.dropWhile p := by
  induction a with
  | nil => simp
  | cons c r ih =>
    have hc : p c = true := h c (List.mem_cons_self c r)
    simp only [List.cons_append, List.dropWhile_cons, hc, if_true]
    exact ih (fun x hx => h x (List.mem_cons_of_mem c hx))

theorem takeWhile_eq_self_of_all {p : Char → Bool} {a : Str}
    (h : ∀ x ∈ a, p x) : a.takeWhile p = a := by
  have := takeWhile_append_of_all (p := p) (a := a) [] h
  simpa using this

theorem dropWhile_eq_nil_of_all {p : Char → Bool} {a : Str}
    (h : ∀ x ∈ a, p x) : a.dropWhile p = [] := by
  have := dropWhile_append_of_all (p := p) (a := a) [] h
  simpa using this

theorem dropWhile_cons_neg {p : Char → Bool} {c : Char} (l : Str)
    (h : ¬ p c = true) : (c :: l).dropWhile p = c :: l := by
  simp [List.dropWhile_cons, h]

theorem cleanToken_all (l : Str) (h : cleanToken l = true) :
    l ≠ [] ∧ ∀ x ∈ l, notWs x = true := by
  unfold cleanToken at h
  simp only [Bool.and_eq_true] at h
  constructor
  · intro hl
    rw [hl] at h
    simp at h
  · exact List.all_eq_true.mp h.2

theorem headNonWs_of_cleanToken (l : Str) (h : cleanToken l = true) :
    headNonWs l = true := by
  rcases cleanToken_all l h with ⟨h1, h2⟩
  cases l with
  | nil => exact absurd rfl h1
  | cons c r => simpa [headNonWs] using h2 c (List.mem_cons_self c r)

theorem dropWhile_isWs_of_headNonWs (l : Str) (h : headNonWs l = true) :
    l.dropWhile isWs = l := by
  cases l with
  | nil => simp
  | cons c r =>
    simp only [headNonWs, notWs, Bool.not_eq_true'] at h
    exact dropWhile_cons_neg r (by simp [h])

theorem pyStrip_eq_self (l : Str) (h : cleanEnds l = true) : pyStrip l = l := by
  unfold cleanEnds at h
  simp only [Bool.and_eq_true] at h
  unfold pyStrip
  rw [dropWhile_isWs_of_headNonWs l h.1, dropWhile_isWs_of_headNonWs l.reverse h.2,
    List.reverse_reverse]

theorem cleanEnds_of_cleanToken (l : Str) (h : cleanToken l = true) :
    cleanEnds l = true := by
  rcases cleanToken_all l h with ⟨h1, h2⟩
  unfold cleanEnds
  rw [headNonWs_of_cleanToken l h]
  have hrev : headNonWs l.reverse = true := by
    cases hr : l.reverse with
    | nil => exact absurd (by simpa using congrArg List.reverse hr) h1
    | cons c r =>
      have hc : c ∈ l := by
        have : c ∈ l.reverse := by rw [hr]; exact List.mem_cons_self c r
        simpa using this
      simpa [headNonWs] using h2 c hc
  rw [hrev]
  rfl

/-- A token, a space, and a clean-ended remainder have clean ends. -/
theorem cleanEnds_token_space (a b : Str) (ha : cleanToken a = true)
    (hb : cleanEnds b = true) : cleanEnds (a ++ ' ' :: b) = true := by
  rcases cleanToken_all a ha with ⟨ha1, ha2⟩
  unfold cleanEnds
  have hfst : headNonWs (a ++ ' ' :: b) = true := by
    cases a with
    | nil => exact absurd rfl ha1
    | cons c r => simpa [headNonWs] using ha2 c (List.mem_cons_self c r)
  have hsnd : headNonWs (a ++ ' ' :: b).reverse = true := by
    rw [List.reverse_append]
    unfold cleanEnds at hb
    simp only [Bool.and_eq_true] at hb
    have hb2 := hb.2
    cases hr : b.reverse with
    | nil =>
      exfalso
      have hb0 : b = [] := by simpa using congrArg List.reverse hr
      rw [hb0] at hb
      simpa [headNonWs] using hb.1
    | cons c r =>
      rw [hr] at hb2
      rw [List.reverse_cons, hr]
      simp only [headNonWs] at hb2
      simpa [headNonWs, List.cons_append] using hb2
  rw [hfst, hsnd]
  rfl

theorem pySplitWs_cons_ws (n : Nat) (c : Char) (l : Str) (h : isWs c = true) :
    pySplitWs n (c :: l) = pySplitWs n l := by
  cases n <;> simp [pySplitWs, List.dropWhile_cons, h]

/-- Splitting a clean token, a space, and anything: the token comes off and
the rest is split with one budget less. -/
theorem pySplitWs_token (n : Nat) (a b : Str) (ha : cleanToken a = true) :
    pySplitWs (n + 1) (a ++ ' ' :: b) = a :: pySplitWs n b := by
  rcases cleanToken_all a ha with ⟨ha1, ha2⟩
  have hd : (a ++ ' ' :: b).dropWhile isWs = a ++ ' ' :: b := by
    apply dropWhile_isWs_of_headNonWs
    cases a with
    | nil => exact absurd rfl ha1
    | cons c r => simpa [headNonWs] using ha2 c (List.mem_cons_self c r)
  have hne : a ++ ' ' :: b ≠ [] := by
    cases a <;> simp
  have htw : (a ++ ' ' :: b).takeWhile notWs = a := by
    rw [takeWhile_append_of_all (' ' :: b) ha2]
    simp [List.takeWhile_cons, notWs, isWs]
  have hdw : (a ++ ' ' :: b).dropWhile notWs = ' ' :: b := by
    rw [dropWhile_append_of_all (' ' :: b) ha2]
    simp [List.dropWhile_cons, notWs, isWs]
  conv_lhs => rw [pySplitWs]
  simp only [hd, htw, hdw, if_neg hne]
  rw [pySplitWs_cons_ws n ' ' b (by simp [isWs])]

/-- A clean token alone splits to itself, with any positive budget. -/
theorem pySplitWs_single (n : Nat) (a : Str) (ha : cleanToken a = true) :
    pySplitWs (n + 1) a = [a] := by
  rcases cleanToken_all a ha with ⟨ha1, ha2⟩
  have hd : a.dropWhile isWs = a :=
    dropWhile_isWs_of_headNonWs a (headNonWs_of_cleanToken a ha)
  have htw : a.takeWhile notWs = a := takeWhile_eq_self_of_all ha2
  have hdw : a.dropWhile notWs = [] := dropWhile_eq_nil_of_all ha2
  unfold pySplitWs
  simp only [hd, if_neg ha1, htw, hdw]
  cases n <;> simp [pySplitWs]

/-- A clean-ended remainder with budget 0 is the single last piece. -/
theorem pySplitWs_zero (a : Str) (ha : headNonWs a = true) :
    pySplitWs 0 a = [a] := by
  have hd : a.dropWhile isWs = a := dropWhile_isWs_of_headNonWs a ha
  have hne : a ≠ [] := by cases a with
    | nil => simp [headNonWs] at ha
    | cons c r => simp
  conv_lhs => rw [pySplitWs]
  simp only [hd, if_neg hne]

theorem dropWhile_head_not {p : Char → Bool} :
    ∀ (l : Str) (c : Char) (r : Str), l.dropWhile p = c :: r → p c = false
  | [], c, r, h => by simp at h
  | a :: l, c, r, h => by
    by_cases hp : p a = true
    · rw [List.dropWhile_cons, if_pos hp] at h
      exact dropWhile_head_not l c r h
    · rw [List.dropWhile_cons, if_neg hp] at h
      cases h
      simpa using hp

theorem pyStrip_eq_nil_all_ws (l : Str) (h : pyStrip l = []) :
    ∀ c ∈ l, isWs c = true := by
  unfold pyStrip at h
  have h1 : (l.dropWhile isWs).reverse.dropWhile isWs = [] := by
    simpa using congrArg List.reverse h
  have h2 : ∀ c ∈ (l.dropWhile isWs).reverse, isWs c = true :=
    List.dropWhile_eq_nil_iff.mp h1
  have h3 : l.dropWhile isWs = [] := by
    cases hd : l.dropWhile isWs with
    | nil => rfl
    | cons c r =>
      have hc : isWs c = false := dropWhile_head_not l c r hd
      have : c ∈ (l.dropWhile isWs).reverse := by
        rw [hd]
        simp
      rw [h2 c this] at hc
      cases hc
  exact List.dropWhile_eq_nil_iff.mp h3

theorem pySplitSep_ne_nil (sep : Char) : ∀ l : Str, pySplitSep sep l ≠ []
  | [] => by simp [pySplitSep]
  | c :: rest => by
    by_cases hc : c = sep
    · rw [pySplitSep, if_pos hc]
      simp
    · rw [pySplitSep, if_neg hc]
      cases hg : pySplitSep sep rest with
      | nil => simp
      | cons g gs => simp

theorem pySplitSep_singleton (sep : Char) :
    ∀ (l m : Str), pySplitSep sep l = [m] → m = l
  | [], m, h => by
    have h2 : ([[]] : List Str) = [m] := h
    simpa using h2.symm
  | c :: rest, m, h => by
    by_cases hc : c = sep
    · exfalso
      rw [pySplitSep, if_pos hc] at h
      cases hg : pySplitSep sep rest with
      | nil =>
        have := pySplitSep_ne_nil sep rest
        exact this hg
      | cons g gs => rw [hg] at h; simp at h
    · rw [pySplitSep, if_neg hc] at h
      cases hg : pySplitSep sep rest with
      | nil =>
        exact absurd hg (pySplitSep_ne_nil sep rest)
      | cons g gs =>
        rw [hg] at h
        have h1 : (c :: g) = m ∧ gs = [] := by
          constructor
          · exact (List.cons.injEq .. ▸ h).1
          · exact (List.cons.injEq .. ▸ h).2
        have h2 : g = rest := by
          apply pySplitSep_singleton sep rest
          rw [hg, h1.2]
        rw [← h1.1, h2]

theorem pySplitSep_not_mem (sep : Char) (l : Str) (h : sep ∉ l) :
    pySplitSep sep l = [l] := by
  induction l with
  | nil => rfl
  | cons c rest ih =>
    have hc : ¬ c = sep := fun hh => h (hh ▸ List.mem_cons_self c rest)
    rw [pySplitSep, if_neg hc, ih (fun hm => h (List.mem_cons_of_mem c hm))]

/-! ### Lemmas about Python `replace` -/

theorem replaceFuel_nil (pat : Str) (f : Nat) : replaceFuel pat f [] = [] := by
  cases f <;> rfl

theorem replaceFuel_congr (pat : Str) :
    ∀ (f1 : Nat) (l : Str) (f2 : Nat), l.length ≤ f1 → l.length ≤ f2 →
      replaceFuel pat f1 l = replaceFuel pat f2 l
  | 0, l, f2, h1, _ => by
    have hl : l = [] := List.eq_nil_of_length_eq_zero (Nat.le_zero.mp h1)
    rw [hl, replaceFuel_nil, replaceFuel_nil]
  | _ + 1, [], f2, _, _ => by rw [replaceFuel_nil, replaceFuel_nil]
  | f1 + 1, c :: rest, f2, h1, h2 => by
    cases f2 with
    | zero => simp at h2
    | succ g =>
      simp only [List.length_cons, Nat.add_le_add_iff_right] at h1 h2
      rw [replaceFuel, replaceFuel]
      by_cases hp : pat.isPrefixOf (c :: rest) = true ∧ pat ≠ []
      · rw [if_pos hp, if_pos hp]
        apply replaceFuel_congr
        · have := List.length_drop (pat.length - 1) rest
          omega
        · have := List.length_drop (pat.length - 1) rest
          omega
      · rw [if_neg hp, if_neg hp]
        rw [replaceFuel_congr pat f1 rest g h1 h2]

theorem pyReplace_cons_ne (ph : Char) (pt : Str) (c : Char) (l : Str)
    (h : c ≠ ph) :
    pyReplace (ph :: pt) (c :: l) = c :: pyReplace (ph :: pt) l := by
  unfold pyReplace
  simp only [List.length_cons]
  rw [replaceFuel]
  rw [if_neg]
  intro hcon
  have h1 := hcon.1
  simp only [List.isPrefixOf] at h1
  rw [Bool.and_eq_true] at h1
  have h2 : ph = c := by simpa using h1.1
  exact h h2.symm

theorem pyReplace_headMatch (ph : Char) (pt : Str) (l : Str) :
    pyReplace (ph :: pt) (ph :: pt ++ l) = pyReplace (ph :: pt) l := by
  unfold pyReplace
  have h0 : ph :: pt ++ l = ph :: (pt ++ l) := rfl
  have hlen : (ph :: (pt ++ l)).length = (pt.length + l.length) + 1 := by
    simp
  rw [h0, hlen, replaceFuel]
  rw [if_pos]
  · have h2 : (pt ++ l).drop ((ph :: pt).length - 1) = l := by
      simp only [List.length_cons, Nat.add_sub_cancel]
      exact List.drop_left pt l
    rw [h2]
    exact replaceFuel_congr (ph :: pt) (pt.length + l.length) l l.length
      (by omega) (by omega)
  · constructor
    · simp only [List.isPrefixOf]
      rw [Bool.and_eq_true]
      constructor
      · simp
      · exact List.isPrefixOf_iff_prefix.mpr (List.prefix_append pt l)
    · simp

theorem pyReplace_append_disjoint (ph : Char) (pt : Str) (a l : Str)
    (h : ∀ c ∈ a, c ≠ ph) :
    pyReplace (ph :: pt) (a ++ l) = a ++ pyReplace (ph :: pt) l := by
  induction a with
  | nil => simp
  | cons c r ih =>
    have hc : c ≠ ph := h c (List.mem_cons_self c r)
    rw [List.cons_append, pyReplace_cons_ne ph pt c (r ++ l) hc,
      ih (fun x hx => h x (List.mem_cons_of_mem c hx))]
    rfl

theorem pyReplace_disjoint_self (ph : Char) (pt : Str) (a : Str)
    (h : ∀ c ∈ a, c ≠ ph) : pyReplace (ph :: pt) a = a := by
  have h2 := pyReplace_append_disjoint ph pt a [] h
  rw [List.append_nil] at h2
  rw [h2]
  simp [pyReplace, replaceFuel]

/-- `text.replace(f, "")` removes every aligned occurrence: with the
fragment `f` standing twice in the text and its leading character absent
from the other pieces, both copies are removed. -/
theorem pyReplace_removes_all (ph : Char) (pt a b c2 : Str)
    (ha : ∀ c ∈ a, c ≠ ph) (hb : ∀ c ∈ b, c ≠ ph) (hc : ∀ c ∈ c2, c ≠ ph) :
    pyReplace (ph :: pt) (a ++ (ph :: pt) ++ b ++ (ph :: pt) ++ c2)
      = a ++ b ++ c2 := by
  have h1 : a ++ (ph :: pt) ++ b ++ (ph :: pt) ++ c2
      = a ++ (ph :: pt ++ (b ++ (ph :: pt ++ c2))) := by
    simp [List.append_assoc]
  rw [h1, pyReplace_append_disjoint ph pt a _ ha]
  rw [pyReplace_headMatch ph pt (b ++ (ph :: pt ++ c2))]
  rw [pyReplace_append_disjoint ph pt b _ hb]
  rw [pyReplace_headMatch ph pt c2, pyReplace_disjoint_self ph pt c2 hc]
  rw [List.append_assoc]

/-! ### Closed theorems: concrete runs of the model -/

/-- Claim C10: the `list` header shows the raw length of the user's index
while the body has one line per indexed id still in the Store; after
`userB` deletes `userA`'s task `id1`, `userA`'s header count (2) exceeds
the number of task lines (1). -/
theorem C10_list_header_count_exceeds_lines :
    headerCount stCrossDelete ("userA".toList) = 2
    ∧ (listBodyLines stCrossDelete ("userA".toList)).length = 1 := by
  constructor
  · decide
  · decide

/-- Claim C1, counterexample: the no-dangling-reference invariant is not
preserved by every dispatched command.  After `userA` creates `id1` and
`id2`, the state is dangling-free; after `userB` (not the owner) issues
`delete id1`, the task is gone from the Store but `id1` is still in
`userA`'s index. -/
theorem C1_counterexample :
    danglingFree stCreate2 = true
    ∧ danglingFree stCrossDelete = false
    ∧ dictGet stCrossDelete.tasks_db ("id1".toList) = none
    ∧ ("id1".toList) ∈ dictGetD stCrossDelete.user_tasks ("userA".toList) [] := by
  refine ⟨by decide, by decide, by decide, by decide⟩

/-- Claim C3, counterexample: the creation path never checks the generated
id against the Store.  When the (truncated-uuid, nondeterministic)
generator yields `dup` twice, the second `create` silently overwrites the
first task and the id is duplicated in the user's index. -/
theorem C3_counterexample :
    (dictGet stDup1.tasks_db ("dup".toList)).map Task.title = some ("alpha".toList)
    ∧ (dictGet stDup2.tasks_db ("dup".toList)).map Task.title = some ("beta".toList)
    ∧ stDup2.tasks_db.length = 1
    ∧ dictGetD stDup2.user_tasks ("userA".toList) [] = ["dup".toList, "dup".toList] := by
  refine ⟨by decide, by decide, by decide, by decide⟩

/-- Claim C4, counterexample: on `"today x today"` the matched fragment is
`"today"`; the code removes both occurrences (`str.replace` replaces all),
so the title is `"x"`, while the spec's first-occurrence-only removal
(`parseFirstOnly`) would keep the second occurrence and give `"x today"`. -/
theorem C4_counterexample :
    (parse_natural_language n0 gpNone ("today x today".toList)).title = "x".toList
    ∧ (parseFirstOnly n0 gpNone ("today x today".toList)).title = "x today".toList
    ∧ ("x".toList : Str) ≠ "x today".toList := by
  refine ⟨by decide, by decide, by decide⟩

/-- Claim C5, counterexample: on the remainder `"\nfoo"` (no deadline
pattern matches) the code takes `lines[0] = ""`, falls back to the whole
remainder as the title, and sets the description from the tail lines; the
first non-empty line `"foo"` is not the title. -/
theorem C5_counterexample :
    (parse_natural_language n0 gpNone ("\nfoo".toList)).title = "\nfoo".toList
    ∧ (parse_natural_language n0 gpNone ("\nfoo".toList)).title ≠ "foo".toList
    ∧ (parse_natural_language n0 gpNone ("\nfoo".toList)).description
        = some ("foo".toList) := by
  refine ⟨by decide, by decide, by decide⟩

/-- Claim C6, counterexample: the `in N days` branch fires on substring
containment, not on the `in N days` form.  On `"x by 10dayinn"` pattern 1
matches the fragment `"by 10dayinn"`, which contains `"in"` and `"day"`,
so the code returns now + 10 days, while the specification's rule sends
this fragment to generic calendar parsing (which fails, deadline absent). -/
theorem C6_counterexample :
    findDeadlineText ("x by 10dayinn".toList) = some ("by 10dayinn".toList)
    ∧ (parse_natural_language n0 gpNone ("x by 10dayinn".toList)).deadline
        = some (addDays n0 10)
    ∧ resolveDeadlineSpec n0 gpNone ("by 10dayinn".toList) = none := by
  refine ⟨by decide, by decide, by decide⟩

/-! ### Amended claim theorems for the extractor -/

/-- Claim C4, amended: when a deadline fragment is matched, the extractor
computes the remainder with `text.replace(fragment, "").strip()`, which
removes every aligned occurrence of the fragment, not only the first: with
the fragment standing twice in the text (and its leading character not
occurring in the other pieces), both copies are gone from the remainder. -/
theorem C4_every_occurrence_removed (ph : Char) (pt a b c2 : Str)
    (hfind : findDeadlineText (a ++ (ph :: pt) ++ b ++ (ph :: pt) ++ c2)
      = some (ph :: pt))
    (ha : ∀ c ∈ a, c ≠ ph) (hb : ∀ c ∈ b, c ≠ ph) (hc : ∀ c ∈ c2, c ≠ ph) :
    strippedRemainder (a ++ (ph :: pt) ++ b ++ (ph :: pt) ++ c2)
      = pyStrip (a ++ b ++ c2) := by
  simp only [strippedRemainder, hfind]
  rw [pyReplace_removes_all ph pt a b c2 ha hb hc]

/-- Witness for `C4_every_occurrence_removed` at the fragment `today`
standing twice in `"today x today"`. -/
theorem C4_every_occurrence_removed_witness :
    strippedRemainder ("today x today".toList) = pyStrip (" x ".toList) := by
  have h := C4_every_occurrence_removed 't' ("oday".toList) [] (" x ".toList) []
    (by decide) (by decide) (by decide) (by decide)
  simpa using h

/-- Claim C5, amended: the extractor splits the remainder on every newline
(empty lines kept) and takes `lines[0]` — possibly empty — as the title.
When the first line strips to empty, the fallback title is the entire
deadline-stripped remainder, not the first non-empty line; a multi-line
remainder still yields the remaining lines, joined and stripped, as the
description. -/
theorem C5_blank_first_line_fallback (now : DT) (gp : Str → Option DT)
    (text : Str) (h0 : findDeadlineText text = none)
    (h1 : pyStrip (pySplitSep '\n' text).headI = []) :
    (parse_natural_language now gp text).title = text
    ∧ (parse_natural_language now gp text).description
        = (if 1 < (pySplitSep '\n' text).length
           then some (pyStrip (joinSep '\n' (pySplitSep '\n' text).tail))
           else none)
    ∧ (parse_natural_language now gp text).deadline = none := by
  have htext2 : strippedRemainder text = text := by
    simp only [strippedRemainder, h0]
  simp only [parse_natural_language, h0, htext2]
  by_cases hlen : 1 < (pySplitSep '\n' text).length
  · simp [hlen, h1]
  · have hne := pySplitSep_ne_nil '\n' text
    have hlen1 : (pySplitSep '\n' text).length = 1 := by
      cases hc : (pySplitSep '\n' text).length with
      | zero => exact absurd (List.length_eq_zero.mp hc) hne
      | succ m =>
        rw [hc] at hlen
        omega
    obtain ⟨m, hm⟩ := List.length_eq_one.mp hlen1
    have hmt : m = text := pySplitSep_singleton '\n' text m hm
    have hall : ∀ c ∈ text, isWs c = true := by
      apply pyStrip_eq_nil_all_ws
      rw [hm, hmt] at h1
      simpa using h1
    have hdot : ('.' : Char) ∉ text := by
      intro hmem
      have h2 := hall '.' hmem
      simp [isWs] at h2
    have hsent : pySplitSep '.' text = [text] := pySplitSep_not_mem '.' text hdot
    have hs1 : ¬ 1 < (pySplitSep '.' text).length := by
      rw [hsent]
      simp
    simp [hlen, hs1, hm, hmt, h1]
    have h1x : pyStrip text = [] := by
      rw [hm, hmt] at h1
      simpa using h1
    intro hcon
    exact absurd h1x hcon

/-- Witness for `C5_blank_first_line_fallback` at the remainder
`"\nfoo"`: the whole remainder, not `"foo"`, becomes the title. -/
theorem C5_blank_first_line_fallback_witness :
    (parse_natural_language n0 gpNone ("\nfoo".toList)).title = "\nfoo".toList := by
  have h := C5_blank_first_line_fallback n0 gpNone ("\nfoo".toList)
    (by decide) (by decide)
  exact h.1

/-- Claim C6, amended: deadline resolution uses fixed offsets keyed by
substring containment in the matched fragment, tried in this order:
`tomorrow` gives now + 1 day preserving the time of day; otherwise
`today` gives today at 23:59; otherwise `next week` gives now + 7 days;
otherwise `next month` gives now + 30 days; otherwise a fragment
containing both `in` and `day` as substrings (not only the literal
`in N days` form) gives now + N days with N the first integer in the
fragment, and no deadline when the fragment has no digits; only a
fragment with none of those substrings goes to generic calendar parsing,
whose failure leaves the deadline absent with no error. -/
theorem C6_fixed_offset_resolution (now : DT) (gp : Str → Option DT) (f : Str) :
    (containsSub (pyLower f) ("tomorrow".toList) = true →
      resolveDeadline now gp f = some (addDays now 1)
      ∧ (addDays now 1).hour = now.hour ∧ (addDays now 1).minute = now.minute)
    ∧ (containsSub (pyLower f) ("tomorrow".toList) = false →
       containsSub (pyLower f) ("today".toList) = true →
      resolveDeadline now gp f = some (endOfDay now)
      ∧ (endOfDay now).day = now.day ∧ (endOfDay now).hour = 23
      ∧ (endOfDay now).minute = 59)
    ∧ (containsSub (pyLower f) ("tomorrow".toList) = false →
       containsSub (pyLower f) ("today".toList) = false →
       containsSub (pyLower f) ("next week".toList) = true →
      resolveDeadline now gp f = some (addDays now 7))
    ∧ (containsSub (pyLower f) ("tomorrow".toList) = false →
       containsSub (pyLower f) ("today".toList) = false →
       containsSub (pyLower f) ("next week".toList) = false →
       containsSub (pyLower f) ("next month".toList) = true →
      resolveDeadline now gp f = some (addDays now 30))
    ∧ (containsSub (pyLower f) ("tomorrow".toList) = false →
       containsSub (pyLower f) ("today".toList) = false →
       containsSub (pyLower f) ("next week".toList) = false →
       containsSub (pyLower f) ("next month".toList) = false →
       containsSub (pyLower f) ("in".toList) = true →
       containsSub (pyLower f) ("day".toList) = true →
      resolveDeadline now gp f =
        (match firstNat f with
         | some n => some (addDays now n)
         | none => none))
    ∧ (containsSub (pyLower f) ("tomorrow".toList) = false →
       containsSub (pyLower f) ("today".toList) = false →
       containsSub (pyLower f) ("next week".toList) = false →
       containsSub (pyLower f) ("next month".toList) = false →
       (containsSub (pyLower f) ("in".toList) = false
        ∨ containsSub (pyLower f) ("day".toList) = false) →
      resolveDeadline now gp f = gp f) := by
  refine ⟨?_, ?_, ?_, ?_, ?_, ?_⟩
  · intro h1
    refine ⟨?_, rfl, rfl⟩
    simp only [resolveDeadline, h1]
    simp
  · intro h1 h2
    refine ⟨?_, rfl, rfl, rfl⟩
    simp only [resolveDeadline, h1, h2]
    simp
  · intro h1 h2 h3
    simp only [resolveDeadline, h1, h2, h3]
    simp
  · intro h1 h2 h3 h4
    simp only [resolveDeadline, h1, h2, h3, h4]
    simp
  · intro h1 h2 h3 h4 h5 h6
    simp only [resolveDeadline, h1, h2, h3, h4, h5, h6]
    simp
  · intro h1 h2 h3 h4 h5
    rcases h5 with h5 | h5 <;>
      · simp only [resolveDeadline, h1, h2, h3, h4, h5]
        simp

/-- Witness for `C6_fixed_offset_resolution` at the fragment
`"tomorrow"`. -/
theorem C6_fixed_offset_resolution_witness :
    resolveDeadline n0 gpNone ("tomorrow".toList) = some (addDays n0 1) :=
  ((C6_fixed_offset_resolution n0 gpNone ("tomorrow".toList)).1 (by decide)).1

/-- Claim C7: a command that produces a usage error, a not-found error, a
status validation error, or an unknown-action error leaves the Task Store
and the User Task Index exactly as they were. -/
theorem C7_error_atomicity (env : Env) (u txt : Str) (st : BotState)
    (h : isErrorCmd st txt = true) :
    (dispatch env u txt st).1 = st := by
  simp only [dispatch, isErrorCmd] at h ⊢
  by_cases ht : pyStrip txt = []
  · simp [ht] at h
  · rw [if_neg ht] at h
    rw [if_neg ht]
    by_cases hc : pyLower (pySplitWs 2 (pyStrip txt)).headI = "create".toList
    · rw [if_pos hc] at h
      rw [if_pos hc, if_pos (of_decide_eq_true h)]
    · rw [if_neg hc] at h
      rw [if_neg hc]
      by_cases hl : pyLower (pySplitWs 2 (pyStrip txt)).headI = "list".toList
      · rw [if_pos hl] at h
        cases h
      · rw [if_neg hl] at h
        rw [if_neg hl]
        by_cases hs : pyLower (pySplitWs 2 (pyStrip txt)).headI = "show".toList
        · rw [if_pos hs]
          by_cases hlen : (pySplitWs 2 (pyStrip txt)).length < 2
          · rw [if_pos hlen]
          · rw [if_neg hlen]
            cases dictGet st.tasks_db ((pySplitWs 2 (pyStrip txt)).getD 1 []) <;> rfl
        · rw [if_neg hs] at h
          rw [if_neg hs]
          by_cases hu : pyLower (pySplitWs 2 (pyStrip txt)).headI = "update".toList
          · rw [if_pos hu] at h
            rw [if_pos hu]
            by_cases hlen : (pySplitWs 2 (pyStrip txt)).length < 3
            · rw [if_pos hlen]
            · rw [if_neg hlen]
              simp only [Bool.or_eq_true, decide_eq_true_eq,
                Option.isNone_iff_eq_none] at h
              cases hg : dictGet st.tasks_db ((pySplitWs 2 (pyStrip txt)).getD 1 []) with
              | none => rfl
              | some task =>
                rcases h with (h | h) | h
                · exact absurd h hlen
                · rw [hg] at h
                  cases h
                · simp only [h, ite_false]
          · rw [if_neg hu] at h
            rw [if_neg hu]
            by_cases hd : pyLower (pySplitWs 2 (pyStrip txt)).headI = "delete".toList
            · rw [if_pos hd] at h
              rw [if_pos hd]
              by_cases hlen : (pySplitWs 2 (pyStrip txt)).length < 2
              · rw [if_pos hlen]
              · rw [if_neg hlen]
                simp only [Bool.or_eq_true, decide_eq_true_eq,
                  Option.isNone_iff_eq_none] at h
                cases hg : dictGet st.tasks_db ((pySplitWs 2 (pyStrip txt)).getD 1 []) with
                | none => rfl
                | some task =>
                  rcases h with h | h
                  · exact absurd h hlen
                  · rw [hg] at h
                    cases h
            · rw [if_neg hd]

/-- Witness for `C7_error_atomicity`: a `show` of an id absent from the
empty store leaves the state unchanged. -/
theorem C7_error_atomicity_witness :
    (dispatch (envN ("w".toList)) ("userA".toList) ("show zzz".toList) st0).1 = st0 :=
  C7_error_atomicity (envN ("w".toList)) ("userA".toList) ("show zzz".toList) st0
    (by decide)

/-- The three frame conjuncts hold trivially when the state is unchanged. -/
theorem frameTriv (env : Env) (txt : Str) (st : BotState) (st' : BotState)
    (h : st' = st) :
    (∀ k t', dictGet st.tasks_db k = none →
        dictGet st'.tasks_db k = some t' →
        t'.status = "pending".toList ∧ t'.created_at = env.now
        ∧ t'.id = env.newId ∧ t'.subtasks = [])
    ∧ (∀ k t t', dictGet st.tasks_db k = some t →
        dictGet st'.tasks_db k = some t' →
        t'.id = t.id ∧ t'.title = t.title ∧ t'.description = t.description
        ∧ t'.deadline = t.deadline ∧ t'.created_at = t.created_at
        ∧ t'.subtasks = t.subtasks)
    ∧ (cmdAction txt = "update".toList →
        st'.user_tasks = st.user_tasks
        ∧ ∀ k, k ≠ (pySplitWs 2 (pyStrip txt)).getD 1 [] →
            dictGet st'.tasks_db k = dictGet st.tasks_db k) := by
  subst h
  refine ⟨?_, ?_, ?_⟩
  · intro k t' hn hs
    rw [hn] at hs
    cases hs
  · intro k t t' h1 h2
    rw [h1] at h2
    cases h2
    exact ⟨rfl, rfl, rfl, rfl, rfl, rfl⟩
  · intro _
    exact ⟨rfl, fun k _ => rfl⟩

/-- Claim C8: a freshly created task has status `pending`, `created_at`
equal to the creation instant, and empty subtasks; whatever the command,
a task present before and after keeps its `id`, `title`, `description`,
`deadline`, `created_at` and `subtasks` (only `status` can change); and a
successful `update` leaves the whole index and every other store entry
untouched.  The fresh-id and distinct-keys hypotheses say the generated id
is new and the store is a dictionary. -/
theorem C8_field_frame (env : Env) (u txt : Str) (st : BotState)
    (hfresh : dictGet st.tasks_db env.newId = none)
    (hnd : (st.tasks_db.map Prod.fst).Nodup) :
    (∀ k t', dictGet st.tasks_db k = none →
        dictGet (dispatch env u txt st).1.tasks_db k = some t' →
        t'.status = "pending".toList ∧ t'.created_at = env.now
        ∧ t'.id = env.newId ∧ t'.subtasks = [])
    ∧ (∀ k t t', dictGet st.tasks_db k = some t →
        dictGet (dispatch env u txt st).1.tasks_db k = some t' →
        t'.id = t.id ∧ t'.title = t.title ∧ t'.description = t.description
        ∧ t'.deadline = t.deadline ∧ t'.created_at = t.created_at
        ∧ t'.subtasks = t.subtasks)
    ∧ (cmdAction txt = "update".toList →
        (dispatch env u txt st).1.user_tasks = st.user_tasks
        ∧ ∀ k, k ≠ (pySplitWs 2 (pyStrip txt)).getD 1 [] →
            dictGet (dispatch env u txt st).1.tasks_db k
              = dictGet st.tasks_db k) := by
  simp only [dispatch]
  by_cases ht : pyStrip txt = []
  · rw [if_pos ht]
    exact frameTriv env txt st st rfl
  · rw [if_neg ht]
    by_cases hc : pyLower (pySplitWs 2 (pyStrip txt)).headI = "create".toList
    · rw [if_pos hc]
      by_cases hlen : (pySplitWs 2 (pyStrip txt)).length < 2
      · rw [if_pos hlen]
        exact frameTriv env txt st st rfl
      · rw [if_neg hlen]
        have hact : cmdAction txt ≠ "update".toList := by
          unfold cmdAction
          rw [hc]
          decide
        refine ⟨?_, ?_, ?_⟩
        · intro k t' hn hs
          simp only [create_task] at hs
          by_cases hk : k = env.newId
          · subst hk
            rw [dictGet_dictInsert_self] at hs
            cases hs
            exact ⟨rfl, rfl, rfl, rfl⟩
          · rw [dictGet_dictInsert_ne st.tasks_db env.newId k _ hk] at hs
            rw [hn] at hs
            cases hs
        · intro k t t' h1 h2
          simp only [create_task] at h2
          have hk : k ≠ env.newId := by
            intro hk
            rw [hk, hfresh] at h1
            cases h1
          rw [dictGet_dictInsert_ne st.tasks_db env.newId k _ hk] at h2
          rw [h1] at h2
          cases h2
          exact ⟨rfl, rfl, rfl, rfl, rfl, rfl⟩
        · intro hupd
          exact absurd hupd hact
    · rw [if_neg hc]
      by_cases hl : pyLower (pySplitWs 2 (pyStrip txt)).headI = "list".toList
      · rw [if_pos hl]
        exact frameTriv env txt st st rfl
      · rw [if_neg hl]
        by_cases hs : pyLower (pySplitWs 2 (pyStrip txt)).headI = "show".toList
        · rw [if_pos hs]
          by_cases hlen : (pySplitWs 2 (pyStrip txt)).length < 2
          · rw [if_pos hlen]
            exact frameTriv env txt st st rfl
          · rw [if_neg hlen]
            cases dictGet st.tasks_db ((pySplitWs 2 (pyStrip txt)).getD 1 []) with
            | none => exact frameTriv env txt st st rfl
            | some task => exact frameTriv env txt st st rfl
        · rw [if_neg hs]
          by_cases hu : pyLower (pySplitWs 2 (pyStrip txt)).headI = "update".toList
          · rw [if_pos hu]
            by_cases hlen : (pySplitWs 2 (pyStrip txt)).length < 3
            · rw [if_pos hlen]
              exact frameTriv env txt st st rfl
            · rw [if_neg hlen]
              cases hg : dictGet st.tasks_db ((pySplitWs 2 (pyStrip txt)).getD 1 []) with
              | none => exact frameTriv env txt st st rfl
              | some task =>
                by_cases hst : pyLower ((pySplitWs 2 (pyStrip txt)).getD 2 []) ∈ statusList
                · simp only [hst, ite_true]
                  refine ⟨?_, ?_, ?_⟩
                  · intro k t' hn hsome
                    rw [dictGet_dictModify] at hsome
                    by_cases hk : k = (pySplitWs 2 (pyStrip txt)).getD 1 []
                    · rw [if_pos hk] at hsome
                      rw [hk, hg] at hn
                      cases hn
                    · rw [if_neg hk] at hsome
                      rw [hn] at hsome
                      cases hsome
                  · intro k t t' h1 h2
                    rw [dictGet_dictModify] at h2
                    by_cases hk : k = (pySplitWs 2 (pyStrip txt)).getD 1 []
                    · rw [if_pos hk] at h2
                      rw [hk, hg] at h1
                      cases h1
                      rw [hg] at h2
                      cases h2
                      exact ⟨rfl, rfl, rfl, rfl, rfl, rfl⟩
                    · rw [if_neg hk] at h2
                      rw [h1] at h2
                      cases h2
                      exact ⟨rfl, rfl, rfl, rfl, rfl, rfl⟩
                  · intro _
                    refine ⟨trivial, ?_⟩
                    intro k hk
                    rw [dictGet_dictModify, if_neg hk]
                · simp only [hst, ite_false]
                  refine ⟨?_, ?_, ?_⟩
                  · intro k t' hn hsome
                    rw [hn] at hsome
                    cases hsome
                  · intro k t t' h1 h2
                    rw [h1] at h2
                    cases h2
                    exact ⟨rfl, rfl, rfl, rfl, rfl, rfl⟩
                  · intro _
                    exact ⟨trivial, fun k _ => trivial⟩
          · rw [if_neg hu]
            by_cases hd : pyLower (pySplitWs 2 (pyStrip txt)).headI = "delete".toList
            · rw [if_pos hd]
              have hact : cmdAction txt ≠ "update".toList := by
                unfold cmdAction
                rw [hd]
                decide
              by_cases hlen : (pySplitWs 2 (pyStrip txt)).length < 2
              · rw [if_pos hlen]
                exact frameTriv env txt st st rfl
              · rw [if_neg hlen]
                cases hg : dictGet st.tasks_db ((pySplitWs 2 (pyStrip txt)).getD 1 []) with
                | none => exact frameTriv env txt st st rfl
                | some task =>
                  refine ⟨?_, ?_, ?_⟩
                  · intro k t' hn hsome
                    rw [dictGet_dictRemove_none st.tasks_db _ k hn] at hsome
                    cases hsome
                  · intro k t t' h1 h2
                    by_cases hk : k = (pySplitWs 2 (pyStrip txt)).getD 1 []
                    · rw [hk] at h2
                      rw [dictGet_dictRemove_self st.tasks_db _ hnd] at h2
                      cases h2
                    · rw [dictGet_dictRemove_ne st.tasks_db _ k hk] at h2
                      rw [h1] at h2
                      cases h2
                      exact ⟨rfl, rfl, rfl, rfl, rfl, rfl⟩
                  · intro hupd
                    exact absurd hupd hact
            · rw [if_neg hd]
              exact frameTriv env txt st st rfl

/-- Witness for `C8_field_frame`: updating `id1` to `completed` leaves the
user index untouched. -/
theorem C8_field_frame_witness :
    (dispatch (envN ("w".toList)) ("userA".toList)
        ("update id1 completed".toList) stCreate1).1.user_tasks
      = stCreate1.user_tasks := by
  have h := C8_field_frame (envN ("w".toList)) ("userA".toList)
    ("update id1 completed".toList) stCreate1 (by decide) (by decide)
  exact (h.2.2 (by decide)).1

theorem dictGet_dictInsert_isSome {K V : Type} [DecidableEq K]
    (d : List (K × V)) (k k' : K) (v : V)
    (h : (dictGet d k').isSome = true) :
    (dictGet (dictInsert d k v) k').isSome = true := by
  by_cases hk : k' = k
  · rw [hk, dictGet_dictInsert_self]
    rfl
  · rw [dictGet_dictInsert_ne d k k' v hk]
    exact h

theorem dictGet_dictModify_isSome {K V : Type} [DecidableEq K]
    (d : List (K × V)) (k k' : K) (f : V → V)
    (h : (dictGet d k').isSome = true) :
    (dictGet (dictModify d k f) k').isSome = true := by
  rw [dictGet_dictModify]
  by_cases hk : k' = k
  · rw [if_pos hk]
    rw [hk] at h
    cases hg : dictGet d k with
    | none => rw [hg] at h; cases h
    | some v => simp
  · rw [if_neg hk]
    exact h

theorem dictGet_of_mem_nodup {K V : Type} [DecidableEq K]
    (d : List (K × V)) (k : K) (v : V)
    (hnd : (d.map Prod.fst).Nodup) (h : (k, v) ∈ d) : dictGet d k = some v := by
  induction d with
  | nil => cases h
  | cons p rest ih =>
    simp only [List.map_cons, List.nodup_cons] at hnd
    rcases List.mem_cons.mp h with h | h
    · rw [← h]
      simp [dictGet]
    · have hp : ¬ p.1 = k := by
        intro hp
        have : p.1 ∈ rest.map Prod.fst := by
          rw [hp]
          exact List.mem_map_of_mem Prod.fst h
        exact hnd.1 this
      rw [dictGet, if_neg hp]
      exact ih hnd.2 h

theorem mem_dictInsert_nodup {K V : Type} [DecidableEq K]
    (d : List (K × V)) (k : K) (v : V) (p : K × V)
    (hnd : (d.map Prod.fst).Nodup) (h : p ∈ dictInsert d k v) :
    p = (k, v) ∨ (p ∈ d ∧ p.1 ≠ k) := by
  induction d with
  | nil =>
    simp only [dictInsert] at h
    rcases List.mem_cons.mp h with h | h
    · exact Or.inl h
    · cases h
  | cons q rest ih =>
    simp only [List.map_cons, List.nodup_cons] at hnd
    by_cases hq : q.1 = k
    · simp only [dictInsert, hq, if_true] at h
      rcases List.mem_cons.mp h with h | h
      · exact Or.inl h
      · right
        refine ⟨List.mem_cons_of_mem _ h, ?_⟩
        intro hp
        apply hnd.1
        rw [hq, ← hp]
        exact List.mem_map_of_mem Prod.fst h
    · simp only [dictInsert, hq, if_false] at h
      rcases List.mem_cons.mp h with h | h
      · right
        exact ⟨h ▸ List.mem_cons_self q rest, h ▸ hq⟩
      · rcases ih hnd.2 h with h2 | h2
        · exact Or.inl h2
        · exact Or.inr ⟨List.mem_cons_of_mem _ h2.1, h2.2⟩

theorem danglingFree_forall (st : BotState) :
    danglingFree st = true ↔
      ∀ p ∈ st.user_tasks, ∀ tid ∈ p.2,
        (dictGet st.tasks_db tid).isSome = true := by
  unfold danglingFree
  simp [List.all_eq_true]

theorem otherIndexFree_forall (st : BotState) (u tid : Str)
    (h : otherIndexFree st u tid = true) :
    ∀ p ∈ st.user_tasks, p.1 ≠ u → tid ∉ p.2 := by
  unfold otherIndexFree at h
  rw [List.all_eq_true] at h
  intro p hp hne
  have h2 := h p hp
  rcases Bool.or_eq_true _ _ |>.mp h2 with h2 | h2
  · exact absurd (by simpa using h2) hne
  · simpa using h2

theorem danglingFree_mk (db : List (Str × Task)) (ut : List (Str × List Str)) :
    danglingFree ⟨db, ut⟩ = true ↔
      ∀ p ∈ ut, ∀ tid ∈ p.2, (dictGet db tid).isSome = true := by
  unfold danglingFree
  simp [List.all_eq_true]

/-- Claim C1, amended: every command preserves the no-dangling-reference
invariant provided a deleted id is indexed by no user other than the
caller, and at most once by the caller (per-user index keys distinct).
`delete` removes the id from the Store and from the calling user's index
only, so a cross-user delete (see `C1_counterexample`) breaks the
invariant. -/
theorem C1_invariant_preserved (env : Env) (u txt : Str) (st : BotState)
    (hnd : (st.user_tasks.map Prod.fst).Nodup)
    (hdf : danglingFree st = true)
    (hdel : ∀ tid, deleteTarget txt = some tid →
        otherIndexFree st u tid = true
        ∧ (dictGetD st.user_tasks u []).count tid ≤ 1) :
    danglingFree (dispatch env u txt st).1 = true := by
  have hdf' := (danglingFree_forall st).mp hdf
  simp only [dispatch]
  by_cases ht : pyStrip txt = []
  · rw [if_pos ht]
    exact hdf
  · rw [if_neg ht]
    by_cases hc : pyLower (pySplitWs 2 (pyStrip txt)).headI = "create".toList
    · rw [if_pos hc]
      by_cases hlen : (pySplitWs 2 (pyStrip txt)).length < 2
      · rw [if_pos hlen]
        exact hdf
      · rw [if_neg hlen]
        simp only [create_task]
        apply (danglingFree_mk _ _).mpr
        intro p hp tid htid
        rcases mem_dictInsert st.user_tasks u _ p hp with hpeq | hpin
        · rw [hpeq] at htid
          rcases List.mem_append.mp htid with htid2 | htid2
          · cases hget : dictGet st.user_tasks u with
            | none =>
              rw [dictGetD, hget] at htid2
              cases htid2
            | some l =>
              rw [dictGetD, hget] at htid2
              have hmem : (u, l) ∈ st.user_tasks := dictGet_some_mem _ _ _ hget
              exact dictGet_dictInsert_isSome _ _ _ _ (hdf' (u, l) hmem tid htid2)
          · have heq : tid = env.newId := by simpa using htid2
            rw [heq, dictGet_dictInsert_self]
            rfl
        · exact dictGet_dictInsert_isSome _ _ _ _ (hdf' p hpin tid htid)
    · rw [if_neg hc]
      by_cases hl : pyLower (pySplitWs 2 (pyStrip txt)).headI = "list".toList
      · rw [if_pos hl]
        exact hdf
      · rw [if_neg hl]
        by_cases hs : pyLower (pySplitWs 2 (pyStrip txt)).headI = "show".toList
        · rw [if_pos hs]
          by_cases hlen : (pySplitWs 2 (pyStrip txt)).length < 2
          · rw [if_pos hlen]
            exact hdf
          · rw [if_neg hlen]
            cases dictGet st.tasks_db ((pySplitWs 2 (pyStrip txt)).getD 1 []) <;>
              exact hdf
        · rw [if_neg hs]
          by_cases hu : pyLower (pySplitWs 2 (pyStrip txt)).headI = "update".toList
          · rw [if_pos hu]
            by_cases hlen : (pySplitWs 2 (pyStrip txt)).length < 3
            · rw [if_pos hlen]
              exact hdf
            · rw [if_neg hlen]
              cases hg : dictGet st.tasks_db ((pySplitWs 2 (pyStrip txt)).getD 1 []) with
              | none => exact hdf
              | some task =>
                by_cases hst : pyLower ((pySplitWs 2 (pyStrip txt)).getD 2 []) ∈ statusList
                · simp only [hst, ite_true]
                  apply (danglingFree_mk _ _).mpr
                  intro p hp tid htid
                  exact dictGet_dictModify_isSome _ _ _ _ (hdf' p hp tid htid)
                · simp only [hst, ite_false]
                  exact hdf
          · rw [if_neg hu]
            by_cases hd : pyLower (pySplitWs 2 (pyStrip txt)).headI = "delete".toList
            · rw [if_pos hd]
              by_cases hlen : (pySplitWs 2 (pyStrip txt)).length < 2
              · rw [if_pos hlen]
                exact hdf
              · rw [if_neg hlen]
                cases hg : dictGet st.tasks_db ((pySplitWs 2 (pyStrip txt)).getD 1 []) with
                | none => exact hdf
                | some task =>
                  have hdt : deleteTarget txt
                      = some ((pySplitWs 2 (pyStrip txt)).getD 1 []) := by
                    simp only [deleteTarget, cmdAction]
                    rw [if_pos]
                    exact ⟨hd, by omega⟩
                  obtain ⟨hOF, hCount⟩ := hdel _ hdt
                  have hOF' := otherIndexFree_forall st u _ hOF
                  apply (danglingFree_mk _ _).mpr
                  intro p hp tid htid
                  cases hget : dictGet st.user_tasks u with
                  | none =>
                    rw [hget] at hp
                    have hp2 : p ∈ st.user_tasks := hp
                    have hpne : p.1 ≠ u := by
                      intro hpu
                      have hmm : (u, p.2) ∈ st.user_tasks := by
                        rw [← hpu]
                        exact hp2
                      exact dictGet_none_not_mem st.user_tasks u p.2 hget hmm
                    have htne : tid ≠ (pySplitWs 2 (pyStrip txt)).getD 1 [] := by
                      intro hte
                      exact hOF' p hp2 hpne (hte ▸ htid)
                    rw [dictGet_dictRemove_ne st.tasks_db _ tid htne]
                    exact hdf' p hp2 tid htid
                  | some l =>
                    rw [hget] at hp
                    have hp2 : p ∈ (if (pySplitWs 2 (pyStrip txt)).getD 1 [] ∈ l then
                        dictInsert st.user_tasks u
                          (l.erase ((pySplitWs 2 (pyStrip txt)).getD 1 []))
                      else st.user_tasks) := hp
                    by_cases hmem : (pySplitWs 2 (pyStrip txt)).getD 1 [] ∈ l
                    · rw [if_pos hmem] at hp2
                      rcases mem_dictInsert_nodup st.user_tasks u _ p hnd hp2 with hpeq | hpin
                      · rw [hpeq] at htid
                        have htl : tid ∈ l := List.mem_of_mem_erase htid
                        have hds : (u, l) ∈ st.user_tasks := dictGet_some_mem _ _ _ hget
                        have htne : tid ≠ (pySplitWs 2 (pyStrip txt)).getD 1 [] := by
                          intro hte
                          rw [dictGetD, hget] at hCount
                          have hnm : ((pySplitWs 2 (pyStrip txt)).getD 1 [])
                              ∉ l.erase ((pySplitWs 2 (pyStrip txt)).getD 1 []) := by
                            rw [← List.count_pos_iff, List.count_erase_self]
                            simp only [Option.getD_some] at hCount
                            omega
                          exact hnm (hte ▸ htid)
                        rw [dictGet_dictRemove_ne st.tasks_db _ tid htne]
                        exact hdf' (u, l) hds tid htl
                      · have htne : tid ≠ (pySplitWs 2 (pyStrip txt)).getD 1 [] := by
                          intro hte
                          exact hOF' p hpin.1 hpin.2 (hte ▸ htid)
                        rw [dictGet_dictRemove_ne st.tasks_db _ tid htne]
                        exact hdf' p hpin.1 tid htid
                    · rw [if_neg hmem] at hp2
                      have htne : tid ≠ (pySplitWs 2 (pyStrip txt)).getD 1 [] := by
                        intro hte
                        by_cases hpu : p.1 = u
                        · have hpl : p.2 = l := by
                            have h2 : dictGet st.user_tasks p.1 = some p.2 :=
                              dictGet_of_mem_nodup st.user_tasks p.1 p.2 hnd hp2
                            rw [hpu, hget] at h2
                            cases h2
                            rfl
                          rw [hpl] at htid
                          exact hmem (hte ▸ htid)
                        · exact hOF' p hp2 hpu (hte ▸ htid)
                      rw [dictGet_dictRemove_ne st.tasks_db _ tid htne]
                      exact hdf' p hp2 tid htid
            · rw [if_neg hd]
              exact hdf

/-- Witness for `C1_invariant_preserved`: the owner deleting their own
task keeps the state dangling-free. -/
theorem C1_invariant_preserved_witness :
    danglingFree (dispatch (envN ("w".toList)) ("userA".toList)
      ("delete id1".toList) stCreate2).1 = true := by
  apply C1_invariant_preserved
  · decide
  · decide
  · intro tid h
    have hdt : deleteTarget ("delete id1".toList) = some ("id1".toList) := by
      decide
    rw [hdt] at h
    injection h with h3
    subst h3
    exact ⟨by decide, by decide⟩

/-- Claim C3, amended: task-id uniqueness holds only conditionally on the
generator.  `create_task` performs no collision check, so ids are unique
and inserts never overwrite exactly when the drawn id is not already a
store key: under that freshness assumption the store gains exactly one
entry, the new id maps to the new task, and every other entry is
untouched (see `C3_counterexample` for a repeated draw overwriting). -/
theorem C3_fresh_id_no_overwrite (env : Env) (u txt : Str) (st : BotState)
    (hfresh : dictGet st.tasks_db env.newId = none)
    (hact : cmdAction txt = "create".toList)
    (hlen : 2 ≤ (pySplitWs 2 (pyStrip txt)).length) :
    dictGet (dispatch env u txt st).1.tasks_db env.newId ≠ none
    ∧ (dispatch env u txt st).1.tasks_db.length = st.tasks_db.length + 1
    ∧ ∀ k, k ≠ env.newId →
        dictGet (dispatch env u txt st).1.tasks_db k
          = dictGet st.tasks_db k := by
  have ht : pyStrip txt ≠ [] := by
    intro h
    unfold cmdAction at hact
    rw [h] at hact
    simp [pySplitWs, pyLower, List.headI] at hact
    exact absurd hact (by decide)
  unfold cmdAction at hact
  simp only [dispatch]
  rw [if_neg ht, if_pos hact, if_neg (by omega : ¬ (pySplitWs 2 (pyStrip txt)).length < 2)]
  simp only [create_task]
  refine ⟨?_, ?_, ?_⟩
  · rw [dictGet_dictInsert_self]
    simp
  · exact length_dictInsert_of_none st.tasks_db env.newId _ hfresh
  · intro k hk
    exact dictGet_dictInsert_ne st.tasks_db env.newId k _ hk

/-- Witness for `C3_fresh_id_no_overwrite`: creating with the unused id
`nid` grows the empty store to one entry. -/
theorem C3_fresh_id_no_overwrite_witness :
    (dispatch (envN ("nid".toList)) ("userA".toList)
      ("create gamma".toList) st0).1.tasks_db.length
      = st0.tasks_db.length + 1 :=
  (C3_fresh_id_no_overwrite (envN ("nid".toList)) ("userA".toList)
    ("create gamma".toList) st0 (by decide) (by decide) (by decide)).2.1

/-- Claim C2: the dispatcher never compares the calling user to a task's
creator.  If `t` is in the Store (created by user `a`, who indexes it),
then for any other user `b`, `show t` returns the task detail, `update t
<status>` mutates the status and returns the success response, and
`delete t` removes the task from the Store — each exactly as if `b` owned
the task. -/
theorem C2_no_ownership_check (env₁ env₂ env₃ : Env) (a b t : Str)
    (st : BotState) (task : Task)
    (hab : a ≠ b)
    (ht : cleanToken t = true)
    (hmem : dictGet st.tasks_db t = some task)
    (hidx : t ∈ dictGetD st.user_tasks a [])
    (hbt : t ∉ dictGetD st.user_tasks b []) :
    dispatch env₁ b ("show".toList ++ ' ' :: t) st
      = (st, ⟨"ephemeral".toList, format_task_response task⟩)
    ∧ (∀ s, s ∈ statusList →
        dispatch env₂ b ("update".toList ++ ' ' :: (t ++ ' ' :: s)) st
          = ({ st with tasks_db := dictModify st.tasks_db t (fun tk => { tk with status := s }) },
             ⟨"in_channel".toList,
              statusMessage s ++ "\n".toList
              ++ format_task_response { task with status := s }⟩))
    ∧ dispatch env₃ b ("delete".toList ++ ' ' :: t) st
      = (⟨dictRemove st.tasks_db t, st.user_tasks⟩,
         ⟨"ephemeral".toList,
          "🗑️ Task '".toList ++ task.title ++ "' has been deleted.".toList⟩) := by
  refine ⟨?_, ?_, ?_⟩
  · have hstrip : pyStrip ("show".toList ++ ' ' :: t) = "show".toList ++ ' ' :: t :=
      pyStrip_eq_self _ (cleanEnds_token_space ("show".toList) t (by decide)
        (cleanEnds_of_cleanToken t ht))
    have hsplit : pySplitWs 2 ("show".toList ++ ' ' :: t) = ["show".toList, t] := by
      rw [pySplitWs_token 1 ("show".toList) t (by decide)]
      rw [pySplitWs_single 0 t ht]
    have hgd : ((["show".toList, t] : List Str).getD 1 []) = t := rfl
    simp only [dispatch, hstrip, hsplit]
    rw [hgd, hmem]
    rfl
  · intro s hs
    have hcs : cleanToken s = true := by
      fin_cases hs <;> decide
    have hls : pyLower s = s := by
      fin_cases hs <;> decide
    have hce : cleanEnds (t ++ ' ' :: s) = true :=
      cleanEnds_token_space t s ht (cleanEnds_of_cleanToken s hcs)
    have hstrip : pyStrip ("update".toList ++ ' ' :: (t ++ ' ' :: s))
        = "update".toList ++ ' ' :: (t ++ ' ' :: s) :=
      pyStrip_eq_self _ (cleanEnds_token_space ("update".toList) _ (by decide) hce)
    have hsplit : pySplitWs 2 ("update".toList ++ ' ' :: (t ++ ' ' :: s))
        = ["update".toList, t, s] := by
      rw [pySplitWs_token 1 ("update".toList) _ (by decide)]
      rw [pySplitWs_token 0 t s ht]
      rw [pySplitWs_zero s (headNonWs_of_cleanToken s hcs)]
    have hgd1 : ((["update".toList, t, s] : List Str).getD 1 []) = t := rfl
    have hgd2 : pyLower ((["update".toList, t, s] : List Str).getD 2 []) = s := hls
    simp only [dispatch, hstrip, hsplit]
    rw [hgd1, hgd2, hmem]
    simp only [hs, ite_true]
    rfl
  · have hstrip : pyStrip ("delete".toList ++ ' ' :: t) = "delete".toList ++ ' ' :: t :=
      pyStrip_eq_self _ (cleanEnds_token_space ("delete".toList) t (by decide)
        (cleanEnds_of_cleanToken t ht))
    have hsplit : pySplitWs 2 ("delete".toList ++ ' ' :: t) = ["delete".toList, t] := by
      rw [pySplitWs_token 1 ("delete".toList) t (by decide)]
      rw [pySplitWs_single 0 t ht]
    have hgd : ((["delete".toList, t] : List Str).getD 1 []) = t := rfl
    cases hgetb : dictGet st.user_tasks b with
    | none =>
      simp only [dispatch, hstrip, hsplit]
      rw [hgd, hmem, hgetb]
      rfl
    | some l =>
      have hnl : t ∉ l := by
        rw [dictGetD, hgetb] at hbt
        simpa using hbt
      simp only [dispatch, hstrip, hsplit]
      rw [hgd, hmem, hgetb]
      simp only [hnl, ite_false]
      rfl

/-- Witness for `C2_no_ownership_check`: `userB` showing `userA`'s task
`id1` gets the full detail. -/
theorem C2_no_ownership_check_witness :
    dispatch (envN ("w1".toList)) ("userB".toList)
        ("show".toList ++ ' ' :: "id1".toList) stCreate1
      = (stCreate1, ⟨"ephemeral".toList, format_task_response
          { id := "id1".toList, title := "alpha".toList, description := none,
            deadline := none, status := "pending".toList, created_at := n0,
            subtasks := [] }⟩) :=
  (C2_no_ownership_check (envN ("w1".toList)) (envN ("w2".toList))
    (envN ("w3".toList)) ("userA".toList) ("userB".toList) ("id1".toList)
    stCreate1
    { id := "id1".toList, title := "alpha".toList, description := none,
      deadline := none, status := "pending".toList, created_at := n0,
      subtasks := [] }
    (by decide) (by decide) (by decide) (by decide) (by decide)).1

/-- Claim C9: creating a task from any valid input and immediately showing
the returned id yields the detail view of the stored task, whose title,
description and deadline are exactly what the Extractor produced from the
create argument (as re-joined by the dispatcher), and the `show` leaves
the state untouched. -/
theorem C9_roundtrip (env env' : Env) (u u' args : Str) (st : BotState)
    (hargs : cleanEnds args = true)
    (hid : cleanToken env.newId = true) :
    ∃ task,
      dictGet ((dispatch env u ("create".toList ++ ' ' :: args) st).1).tasks_db
          env.newId = some task
      ∧ task.title = (parse_natural_language env.now env.gp
          (joinSep ' ' (pySplitWs 2 ("create".toList ++ ' ' :: args)).tail)).title
      ∧ task.description = (parse_natural_language env.now env.gp
          (joinSep ' ' (pySplitWs 2 ("create".toList ++ ' ' :: args)).tail)).description
      ∧ task.deadline = (parse_natural_language env.now env.gp
          (joinSep ' ' (pySplitWs 2 ("create".toList ++ ' ' :: args)).tail)).deadline
      ∧ dispatch env' u' ("show".toList ++ ' ' :: env.newId)
            (dispatch env u ("create".toList ++ ' ' :: args) st).1
          = ((dispatch env u ("create".toList ++ ' ' :: args) st).1,
             ⟨"ephemeral".toList, format_task_response task⟩) := by
  have hargne : args ≠ [] := by
    intro hcon
    rw [hcon] at hargs
    simp [cleanEnds, headNonWs] at hargs
  have hhead : headNonWs args = true := by
    unfold cleanEnds at hargs
    exact (Bool.and_eq_true _ _ ▸ hargs).1
  have hd : args.dropWhile isWs = args := dropWhile_isWs_of_headNonWs args hhead
  have hstrip : pyStrip ("create".toList ++ ' ' :: args)
      = "create".toList ++ ' ' :: args :=
    pyStrip_eq_self _ (cleanEnds_token_space ("create".toList) args (by decide) hargs)
  have hsplit : pySplitWs 2 ("create".toList ++ ' ' :: args)
      = "create".toList :: pySplitWs 1 args :=
    pySplitWs_token 1 ("create".toList) args (by decide)
  have hone : pySplitWs 1 args
      = args.takeWhile notWs :: pySplitWs 0 (args.dropWhile notWs) := by
    conv_lhs => rw [pySplitWs]
    simp only [hd, if_neg hargne]
  have hlen : ¬ (("create".toList : Str) :: pySplitWs 1 args).length < 2 := by
    rw [hone]
    simp
  have hne : ("create".toList ++ ' ' :: args : Str) ≠ [] := by simp
  have hstrip2 : pyStrip ("show".toList ++ ' ' :: env.newId)
      = "show".toList ++ ' ' :: env.newId :=
    pyStrip_eq_self _ (cleanEnds_token_space ("show".toList) env.newId (by decide)
      (cleanEnds_of_cleanToken env.newId hid))
  have hsplit2 : pySplitWs 2 ("show".toList ++ ' ' :: env.newId)
      = ["show".toList, env.newId] := by
    rw [pySplitWs_token 1 ("show".toList) env.newId (by decide)]
    rw [pySplitWs_single 0 env.newId hid]
  have hgd3 : ((["show".toList, env.newId] : List Str).getD 1 []) = env.newId := rfl
  simp only [dispatch, hstrip, hsplit, hstrip2, hsplit2]
  rw [if_neg hne]
  rw [show pyLower (("create".toList : Str) :: pySplitWs 1 args).headI
      = "create".toList from rfl]
  rw [if_pos rfl, if_neg hlen]
  simp only [create_task]
  rw [hgd3]
  refine ⟨_, dictGet_dictInsert_self st.tasks_db env.newId _, rfl, rfl, rfl, ?_⟩
  rw [dictGet_dictInsert_self]
  rfl

/-- Witness for `C9_roundtrip`: creating `alpha` under the drawn id `nid`
and showing it. -/
theorem C9_roundtrip_witness :
    ∃ task,
      dictGet ((dispatch (envN ("nid".toList)) ("userA".toList)
          ("create".toList ++ ' ' :: "alpha".toList) st0).1).tasks_db
          ("nid".toList) = some task
      ∧ task.title = (parse_natural_language n0 gpNone
          (joinSep ' '
            (pySplitWs 2 ("create".toList ++ ' ' :: "alpha".toList)).tail)).title
      ∧ task.description = (parse_natural_language n0 gpNone
          (joinSep ' '
            (pySplitWs 2 ("create".toList ++ ' ' :: "alpha".toList)).tail)).description
      ∧ task.deadline = (parse_natural_language n0 gpNone
          (joinSep ' '
            (pySplitWs 2 ("create".toList ++ ' ' :: "alpha".toList)).tail)).deadline
      ∧ dispatch (envN ("w".toList)) ("userB".toList)
            ("show".toList ++ ' ' :: "nid".toList)
            (dispatch (envN ("nid".toList)) ("userA".toList)
              ("create".toList ++ ' ' :: "alpha".toList) st0).1
          = ((dispatch (envN ("nid".toList)) ("userA".toList)
              ("create".toList ++ ' ' :: "alpha".toList) st0).1,
             ⟨"ephemeral".toList, format_task_response task⟩) :=
  C9_roundtrip (envN ("nid".toList)) (envN ("w".toList)) ("userA".toList)
    ("userB".toList) ("alpha".toList) st0 (by decide) (by decide)

end Bot
